import Mathlib

/-!
struct2type: the converter from Go structs to TypeScript interfaces.

A shallow embedding of `pkg/converter/converter.go`.

* Go strings are Lean `String`s.  The text handed to the converter comes out of
  `go/parser`, which rejects a file that is not valid UTF-8, and every separator
  the converter searches for is ASCII, so searching by character and searching by
  byte find the same occurrences.
* `go/ast` type expressions are the inductive `ast.Expr`; the constructors carry
  what the converter reads (names, element, key and value types) and the shapes
  it never looks into carry nothing.
* A run-time panic (index out of range) is the value `none`.
-/

set_option autoImplicit false

/-! ## The syntax tree handed over by `go/parser` -/

namespace ast

/-- Type expressions of `go/ast`, as far as a struct field can hold them.
`ArrayType` has `Len = none` for a slice `[]T` and `some n` for an array `[n]T`. -/
inductive Expr where
  | Ident (Name : String)
  | ArrayType (Len : Option Expr) (Elt : Expr)
  | MapType (Key : Expr) (Value : Expr)
  | StarExpr (X : Expr)
  | SelectorExpr (X : Expr) (Sel : String)
  | ChanType (Value : Expr)
  | FuncType
  | InterfaceType
  | StructType
  | ParenExpr (X : Expr)
  | BasicLit (Value : String)
  | Ellipsis

/-- One entry of a struct's field list: `Names` is empty for an embedded field,
`Typ` is the field `Type` of the source, and `Tag` is the `Value` of the tag
literal (its quotes included) when there is one. -/
structure Field where
  Names : List String
  Typ : Expr
  Tag : Option String

/-- The list `Fields.List` of a struct type. -/
structure StructType where
  Fields : List Field

end ast

/-! ## The functions of Go's `strings` package the converter calls -/

namespace strings

/-- Position of the first occurrence of `sep` in `s`, scanning from the left. -/
def indexChars (sep : List Char) : List Char → Option Nat
  | [] => if sep.isPrefixOf [] then some 0 else none
  | c :: cs =>
    if sep.isPrefixOf (c :: cs) then some 0
    else (indexChars sep cs).map (· + 1)

/-- The loop of `genSplit`: cut `s` at the first occurrence of `sep`, keep the
text before it and go on after it, for at most `n` cuts; what is left is the
last piece. -/
def splitChars (sep : List Char) : Nat → List Char → List (List Char)
  | 0, s => [s]
  | n + 1, s =>
    match indexChars sep s with
    | none => [s]
    | some m => s.take m :: splitChars sep n (s.drop (m + sep.length))

/-- `strings.Index(s, substr)`: the first occurrence, `none` for Go's `-1`. -/
def Index (s substr : String) : Option Nat :=
  indexChars substr.data s.data

/-- `strings.Contains(s, substr)`, which is `Index(s, substr) >= 0`. -/
def Contains (s substr : String) : Bool :=
  (Index s substr).isSome

/-- `strings.Split(s, sep)`.  With an empty separator the string is cut after
every character.  Otherwise Go allows `Count(s, sep)` cuts; here the bound is the
length of `s`, which is at least that count, and the loop stops by itself at the
first search that finds nothing. -/
def Split (s sep : String) : List String :=
  if sep.data = [] then s.data.map String.singleton
  else (splitChars sep.data s.data.length s.data).map String.mk

/-- `strings.HasSuffix(s, suffix)`. -/
def HasSuffix (s suffix : String) : Bool :=
  suffix.data.isSuffixOf s.data

/-- `strings.Join(elems, sep)`: nothing for no element, the element itself for
one, and otherwise the elements with `sep` between each two. -/
def Join : List String → String → String
  | [], _ => ""
  | [a], _ => a
  | a :: b :: rest, sep => a ++ sep ++ Join (b :: rest) sep

end strings

/-! ## The converter -/

/-- The converter: its table from Go type names to TypeScript type names. -/
structure Converter where
  typeMap : List (String × String)

/-- The converter `New()` returns. -/
def New : Converter :=
  { typeMap := [
      ("string", "string"),
      ("int", "number"),
      ("int8", "number"),
      ("int16", "number"),
      ("int32", "number"),
      ("int64", "number"),
      ("uint", "number"),
      ("uint8", "number"),
      ("uint16", "number"),
      ("uint32", "number"),
      ("uint64", "number"),
      ("float32", "number"),
      ("float64", "number"),
      ("bool", "boolean"),
      ("[]byte", "string"),
      ("time.Time", "string")] }

/-- The type switch of `getTypeScriptType`. -/
def Converter.getTypeScriptType (c : Converter) : ast.Expr → String
  | .Ident Name =>
    match c.typeMap.lookup Name with
    | some tsType => tsType
    | none => Name
  | .ArrayType _ Elt => c.getTypeScriptType Elt ++ "[]"
  | .MapType Key Value =>
    "Record<" ++ c.getTypeScriptType Key ++ ", " ++ c.getTypeScriptType Value ++ ">"
  | .StarExpr X => c.getTypeScriptType X
  | _ => "any"


/-- The name an embedded or named field starts with (lines 80 to 95). -/
def Converter.declaredName (field : ast.Field) : String :=
  match field.Names with
  | [] =>
    match field.Typ with
    | .Ident Name => Name
    | .SelectorExpr _ Sel => Sel
    | _ => "embedded"
  | Name :: _ => Name

/-- What one pass through the loop of `convertStruct` does with a field. -/
inductive FieldStep where
  | skip
  | emit (line : String)
  deriving DecidableEq, Repr

/-- The body of the loop of `convertStruct` for one field: `none` when an index
is out of range, `skip` for `continue`, `emit line` for the appended line. -/
def Converter.convertField (c : Converter) (field : ast.Field) : Option FieldStep :=
  let fieldName := Converter.declaredName field
  let fieldType := c.getTypeScriptType field.Typ
  match field.Tag with
  | none => some (.emit ("  " ++ fieldName ++ ": " ++ fieldType ++ ";"))
  | some tag =>
    if strings.Contains tag "json:" then
      match (strings.Split tag "json:\"")[1]? with
      | none => none
      | some rest =>
        match (strings.Split rest "\"")[0]? with
        | none => none
        | some jsonTag =>
          if jsonTag = "-" then some .skip
          else if jsonTag ≠ "" then
            match (strings.Split jsonTag ",")[0]? with
            | none => none
            | some first => some (.emit ("  " ++ first ++ ": " ++ fieldType ++ ";"))
          else some (.emit ("  " ++ fieldName ++ ": " ++ fieldType ++ ";"))
    else some (.emit ("  " ++ fieldName ++ ": " ++ fieldType ++ ";"))

/-- The loop of `convertStruct`: `fields` is the slice built so far. -/
def Converter.convertFields (c : Converter) : List ast.Field → List String → Option (List String)
  | [], fields => some fields
  | field :: rest, fields =>
    match c.convertField field with
    | none => none
    | some .skip => c.convertFields rest fields
    | some (.emit line) => c.convertFields rest (fields ++ [line])

/-- The function `convertStruct`: the interface block of one struct, `none` when the
loop panics. -/
def Converter.convertStruct (c : Converter) (name : String) (structType : ast.StructType) :
    Option String :=
  match c.convertFields structType.Fields [] with
  | none => none
  | some fields => some ("interface " ++ name ++ " \x7b\n" ++ strings.Join fields "\n" ++ "\n\x7d")


/-- The text `jsonTag` of line 103,
`strings.Split(strings.Split(tag, "json:\"")[1], "\"")[0]`: `none` when an index is
out of range. -/
def Converter.jsonTag (tag : String) : Option String :=
  match (strings.Split tag "json:\"")[1]? with
  | none => none
  | some rest => (strings.Split rest "\"")[0]?

/-! ## The declarations of a file -/

namespace ast

/-- The specs of a general declaration.  Of a type spec the converter reads the
name and asks whether `Type` is a struct type: `Struct` is that struct type, and
`none` for every other type expression. -/
inductive Spec where
  | ImportSpec
  | ValueSpec
  | TypeSpec (Name : String) (Struct : Option StructType)

/-- The top-level declarations: general declarations (import, const, type, var)
with their specs, function declarations and bad declarations. -/
inductive Decl where
  | GenDecl (Specs : List Spec)
  | FuncDecl
  | BadDecl

/-- The parsed file, of which the converter reads `Decls`. -/
structure File where
  Decls : List Decl

end ast

/-- The inner loop of `ConvertFile`, over the specs of one declaration; `types`
is the slice built so far. -/
def Converter.convertSpecs (c : Converter) : List ast.Spec → List String → Option (List String)
  | [], types => some types
  | .TypeSpec Name (some structType) :: rest, types =>
    match c.convertStruct Name structType with
    | none => none
    | some tsType => c.convertSpecs rest (types ++ [tsType])
  | _ :: rest, types => c.convertSpecs rest types

/-- The outer loop of `ConvertFile`, over the declarations of the file. -/
def Converter.convertDecls (c : Converter) : List ast.Decl → List String → Option (List String)
  | [], types => some types
  | .GenDecl Specs :: rest, types =>
    match c.convertSpecs Specs types with
    | none => none
    | some types2 => c.convertDecls rest types2
  | _ :: rest, types => c.convertDecls rest types

/-- The function `ConvertFile` after the file has been parsed (a parse error is
returned to the caller before any declaration is read): the text of the file's
struct types, `none` when `convertStruct` panics. -/
def Converter.ConvertFile (c : Converter) (node : ast.File) : Option String :=
  match c.convertDecls node.Decls [] with
  | none => none
  | some types => some (strings.Join types "\n\n")

/-! ## Notions of the specification -/

/-- A tag is well formed for the converter when the loop body does not run out of
range on it: a field without tag, a tag without the text `json:`, or a tag that
holds the text `json:"` somewhere. -/
def tagWellFormed (field : ast.Field) : Bool :=
  match field.Tag with
  | none => true
  | some tag => !strings.Contains tag "json:" || strings.Contains tag "json:\""

/-- The line of a field that is not skipped, `none` for a skipped field (and for
one on which the loop body panics). -/
def Converter.fieldLine (c : Converter) (field : ast.Field) : Option String :=
  match c.convertField field with
  | some (.emit line) => some line
  | _ => none

/-- A field is excluded when the text `jsonTag` the converter extracts from its
tag is exactly `-`. -/
def dashExcluded (field : ast.Field) : Bool :=
  match field.Tag with
  | none => false
  | some tag => Converter.jsonTag tag == some "-"

/-- The text from the start of `s` up to the first double quote, all of `s` when
there is none. -/
def upToQuote : List Char → List Char
  | [] => []
  | c :: cs => if c = '"' then [] else c :: upToQuote cs

/-- The alias value in the words of the specification: the text between the
first occurrence of `json:"` anywhere in the tag and the next double quote;
`none` when the tag does not hold `json:"`. -/
def jsonAliasText (tag : String) : Option String :=
  match strings.Index tag "json:\"" with
  | none => none
  | some m => some (String.mk (upToQuote (tag.data.drop (m + ("json:\"" : String).data.length))))

/-- The json tag value of a field is exactly `-`: the text between the first
`json:"` of its tag and the next double quote is `-`. -/
def valueIsDash (field : ast.Field) : Bool :=
  match field.Tag with
  | none => false
  | some tag => jsonAliasText tag == some "-"

/-- The json tag value of a field ends in `json:`. -/
def valueEndsInJson (field : ast.Field) : Bool :=
  match field.Tag with
  | none => false
  | some tag =>
    match jsonAliasText tag with
    | none => false
    | some value => strings.HasSuffix value "json:"

/-- The struct type declarations among the specs of one declaration, in order. -/
def structSpecs : List ast.Spec → List (String × ast.StructType)
  | [] => []
  | .TypeSpec Name (some structType) :: rest => (Name, structType) :: structSpecs rest
  | _ :: rest => structSpecs rest

/-- The struct type declarations of a sequence of top-level declarations, in the
order they occur. -/
def structDecls : List ast.Decl → List (String × ast.StructType)
  | [] => []
  | .GenDecl Specs :: rest => structSpecs Specs ++ structDecls rest
  | _ :: rest => structDecls rest

/-- The blocks `convertStruct` gives for a list of struct type declarations, one
after the other; `none` when one of the conversions panics. -/
def Converter.structBlocks (c : Converter) : List (String × ast.StructType) → Option (List String)
  | [] => some []
  | (Name, structType) :: rest =>
    match c.convertStruct Name structType, c.structBlocks rest with
    | some block, some blocks => some (block :: blocks)
    | _, _ => none

/-! ## Searching and cutting lists of characters -/

namespace strings

theorem indexChars_at_start {sep s : List Char} (h : sep <+: s) :
    indexChars sep s = some 0 := by
  cases s with
  | nil =>
    have : sep = [] := List.prefix_nil.mp h
    subst this
    simp [indexChars]
  | cons c cs =>
    have hp : sep.isPrefixOf (c :: cs) = true := List.isPrefixOf_iff_prefix.mpr h
    simp [indexChars, hp]

theorem indexChars_cons_step {sep : List Char} {c : Char} {cs : List Char}
    (h : ¬ sep <+: c :: cs) :
    indexChars sep (c :: cs) = (indexChars sep cs).map (· + 1) := by
  have hp : sep.isPrefixOf (c :: cs) = false := by
    cases hb : sep.isPrefixOf (c :: cs) with
    | false => rfl
    | true => exact absurd (List.isPrefixOf_iff_prefix.mp hb) h
  simp [indexChars, hp]

/-- A search that finds nothing: no prefix of the text starts an occurrence. -/
theorem indexChars_eq_none_cons {sep : List Char} {c : Char} {cs : List Char}
    (h : indexChars sep (c :: cs) = none) :
    ¬ sep <+: c :: cs ∧ indexChars sep cs = none := by
  by_cases hp : sep <+: c :: cs
  · rw [indexChars_at_start hp] at h
    cases h
  · rw [indexChars_cons_step hp] at h
    exact ⟨hp, by simpa using h⟩

/-- A text that holds the separator somewhere is found to hold it. -/
theorem indexChars_isSome_of_infix (sep a b : List Char) :
    (indexChars sep (a ++ sep ++ b)).isSome = true := by
  induction a with
  | nil =>
    have : sep <+: [] ++ sep ++ b := by simp
    rw [indexChars_at_start this]
    rfl
  | cons x a ih =>
    by_cases hp : sep <+: x :: a ++ sep ++ b
    · rw [indexChars_at_start hp]
      rfl
    · have : x :: a ++ sep ++ b = x :: (a ++ sep ++ b) := by simp
      rw [this] at hp ⊢
      rw [indexChars_cons_step hp]
      simpa using ih

/-- Entries of a prefix are the entries of the whole list. -/
theorem prefix_getElem? {sep s : List Char} (h : sep <+: s) {i : Nat}
    (hi : i < sep.length) : s[i]? = sep[i]? := by
  obtain ⟨t, rfl⟩ := h
  exact List.getElem?_append_left hi

/-- When the last character `q` of the separator occurs nowhere else in it, an
occurrence cannot start inside a non-empty text `P` and run over `P`'s end into a
copy of the separator. -/
theorem not_prefix_overlap {body : List Char} {q : Char} (hq : q ∉ body)
    {P : List Char} (tail : List Char) (hP : P ≠ []) (hnp : ¬ (body ++ [q]) <+: P) :
    ¬ (body ++ [q]) <+: P ++ (body ++ [q]) ++ tail := by
  intro h
  by_cases hlen : (body ++ [q]).length ≤ P.length
  · apply hnp
    refine List.prefix_of_prefix_length_le h ?_ hlen
    rw [List.append_assoc]
    exact List.prefix_append _ _
  · have hPb : P.length ≤ body.length := by
      simp only [List.length_append, List.length_singleton] at hlen
      omega
    have hPpos : 0 < P.length := List.length_pos.mpr hP
    have h1 := prefix_getElem? h (i := body.length) (by simp)
    rw [List.getElem?_concat_length, List.append_assoc,
      List.getElem?_append_right hPb,
      List.getElem?_append_left (by simp; omega),
      List.getElem?_append_left (by omega)] at h1
    exact hq (List.getElem?_mem h1)

/-- The first occurrence of the separator in `pre ++ sep ++ tail` is the one
written out, when `pre` holds none and the separator's last character is not
repeated in it. -/
theorem indexChars_first {body : List Char} {q : Char} (hq : q ∉ body)
    (pre tail : List Char) (hpre : indexChars (body ++ [q]) pre = none) :
    indexChars (body ++ [q]) (pre ++ (body ++ [q]) ++ tail) = some pre.length := by
  induction pre with
  | nil =>
    have : (body ++ [q]) <+: [] ++ (body ++ [q]) ++ tail := by simp
    rw [indexChars_at_start this]
    rfl
  | cons p pre ih =>
    obtain ⟨hnp, hrest⟩ := indexChars_eq_none_cons hpre
    have hno := not_prefix_overlap hq tail (List.cons_ne_nil p pre) hnp
    have hshape : p :: pre ++ (body ++ [q]) ++ tail = p :: (pre ++ (body ++ [q]) ++ tail) := by
      simp
    rw [hshape] at hno ⊢
    rw [indexChars_cons_step hno, ih hrest]
    rfl

/-- Where a search reports an occurrence, there is one. -/
theorem indexChars_some_prefix {sep : List Char} :
    ∀ (s : List Char) (m : Nat), indexChars sep s = some m → sep <+: s.drop m ∧ m ≤ s.length
  | [], m, h => by
    by_cases hp : sep <+: []
    · rw [indexChars_at_start hp] at h
      cases h
      exact ⟨hp, Nat.le_refl _⟩
    · have : sep.isPrefixOf [] = false := by
        cases hb : sep.isPrefixOf [] with
        | false => rfl
        | true => exact absurd (List.isPrefixOf_iff_prefix.mp hb) hp
      simp [indexChars, this] at h
  | c :: cs, m, h => by
    by_cases hp : sep <+: c :: cs
    · rw [indexChars_at_start hp] at h
      cases h
      exact ⟨hp, Nat.zero_le _⟩
    · rw [indexChars_cons_step hp] at h
      cases hi : indexChars sep cs with
      | none => simp [hi] at h
      | some k =>
        simp only [hi, Option.map_some', Option.some.injEq] at h
        subst h
        obtain ⟨h1, h2⟩ := indexChars_some_prefix cs k hi
        exact ⟨by simpa using h1, by simpa using h2⟩

/-- After a value `v` closed by `q`, the next occurrence of the separator
`body ++ [q]` starts beyond the closing `q`, when `q` occurs neither in `v` nor
in `body` and `v` does not end in `body`. -/
theorem indexChars_after_value {body v post : List Char} {q : Char} {m : Nat}
    (hq : q ∉ body) (hv : q ∉ v) (hend : ¬ body <:+ v)
    (h : indexChars (body ++ [q]) (v ++ q :: post) = some m) : v.length < m := by
  by_contra hle
  have hm : m ≤ v.length := by omega
  obtain ⟨hp, -⟩ := indexChars_some_prefix _ _ h
  rw [List.drop_append_of_le_length hm] at hp
  have hvd : q ∉ v.drop m := fun hmem => hv (List.mem_of_mem_drop hmem)
  rcases Nat.lt_trichotomy body.length (v.drop m).length with hlt | heq | hgt
  · have h1 := prefix_getElem? hp (i := body.length) (by simp)
    rw [List.getElem?_concat_length, List.getElem?_append_left hlt] at h1
    exact hvd (List.getElem?_mem h1)
  · have hb : body <+: v.drop m ++ q :: post :=
      (List.prefix_append body [q]).trans hp
    have hb2 : body <+: v.drop m :=
      List.prefix_of_prefix_length_le hb (List.prefix_append _ _) (Nat.le_of_eq heq)
    have : body = v.drop m := hb2.eq_of_length heq
    exact hend (this ▸ List.drop_suffix m v)
  · have h1 := prefix_getElem? hp (i := (v.drop m).length)
      (by rw [List.length_append]; omega)
    rw [List.getElem?_append_left hgt, List.getElem?_append_right (Nat.le_refl _)] at h1
    simp at h1
    exact hq (List.getElem?_mem h1.symm)

/-- A one-character separator that does not occur is not found. -/
theorem indexChars_single_none {q : Char} :
    ∀ (v : List Char), q ∉ v → indexChars [q] v = none
  | [], _ => by simp [indexChars]
  | c :: cs, h => by
    have hc : ¬ [q] <+: c :: cs := by
      intro hp
      have h0 := prefix_getElem? hp (i := 0) (by simp)
      simp at h0
      exact h (by simp [h0])
    rw [indexChars_cons_step hc,
      indexChars_single_none cs (fun hm => h (List.mem_cons_of_mem _ hm))]
    rfl

/-- The first occurrence of a character `q` after a text without `q`. -/
theorem indexChars_single_first {q : Char} (v w : List Char) (hv : q ∉ v) :
    indexChars [q] (v ++ q :: w) = some v.length := by
  have h := @indexChars_first [] q (by simp) v w
    (by simpa using indexChars_single_none v hv)
  simpa using h

/-- The piece before the first `q`: the first element of the split, whatever
follows the `q`. -/
theorem splitChars_single_head {q : Char} (v w : List Char) (hv : q ∉ v) (n : Nat)
    (hn : 0 < n) : (splitChars [q] n (v ++ q :: w))[0]? = some v := by
  obtain ⟨k, rfl⟩ : ∃ k, n = k + 1 := ⟨n - 1, by omega⟩
  simp [splitChars, indexChars_single_first v w hv]

/-- A text without `q` is the only piece of its split at `q`. -/
theorem splitChars_single_whole {q : Char} (v : List Char) (hv : q ∉ v) (n : Nat) :
    splitChars [q] n v = [v] := by
  cases n with
  | zero => rfl
  | succ k => simp [splitChars, indexChars_single_none v hv]

/-- The second piece of the split at `body ++ [q]` of a text whose first
occurrence of that separator is followed by a value `v` and a closing `q`: the
piece starts with the value and its closing `q`. -/
theorem splitChars_second {body v pre post : List Char} {q : Char}
    (hq : q ∉ body) (hpre : indexChars (body ++ [q]) pre = none)
    (hv : q ∉ v) (hend : ¬ body <:+ v) (n : Nat) (hn : 2 ≤ n) :
    ∃ w, (splitChars (body ++ [q]) n (pre ++ (body ++ [q]) ++ (v ++ q :: post)))[1]?
      = some (v ++ q :: w) := by
  obtain ⟨k, rfl⟩ : ∃ k, n = k + 2 := ⟨n - 2, by omega⟩
  have hfirst := indexChars_first hq pre (v ++ q :: post) hpre
  have hdrop : (pre ++ (body ++ [q]) ++ (v ++ q :: post)).drop
      (pre.length + (body ++ [q]).length) = v ++ q :: post := by
    rw [← List.length_append]
    exact List.drop_left _ _
  cases hnext : indexChars (body ++ [q]) (v ++ q :: post) with
  | none =>
    refine ⟨post, ?_⟩
    simp only [splitChars, hfirst, hdrop, hnext]
    rfl
  | some m =>
    have hm := indexChars_after_value hq hv hend hnext
    refine ⟨post.take (m - (v.length + 1)), ?_⟩
    simp only [splitChars, hfirst, hdrop, hnext]
    have hcut : (v ++ q :: post).take m = v ++ q :: post.take (m - (v.length + 1)) := by
      have hm2 : m = (v ++ [q]).length + (m - (v.length + 1)) := by
        simp only [List.length_append, List.length_singleton]
        omega
      have hshape : v ++ q :: post = (v ++ [q]) ++ post := by simp
      rw [hshape]
      conv_lhs => rw [hm2]
      rw [List.take_append]
      simp
    simp [hcut]

/-! ## The same facts on strings -/

/-- Pieces of `Split` by index, for a non-empty separator. -/
theorem Split_getElem? (s sep : String) (h : sep.data ≠ []) (i : Nat) :
    (Split s sep)[i]? = ((splitChars sep.data s.data.length s.data)[i]?).map String.mk := by
  simp [Split, h, List.getElem?_map]

/-- The text `Split(Split(tag, "json:\"")[1], "\"")[0]` of a tag whose first
`json:"` is followed by a value `v` and a closing quote: it is `v`, when `v`
holds no quote and does not end in `json:`. -/
theorem jsonTag_extract (pre v post : String)
    (hpre : Contains pre "json:\"" = false) (hv : '"' ∉ v.data)
    (hend : HasSuffix v "json:" = false) :
    ∃ rest, (Split (pre ++ "json:\"" ++ v ++ "\"" ++ post) "json:\"")[1]? = some rest ∧
      (Split rest "\"")[0]? = some v := by
  have hsep : ("json:\"" : String).data = ['j', 's', 'o', 'n', ':'] ++ ['"'] := rfl
  have hone : ("\"" : String).data = ['"'] := rfl
  have hq : '"' ∉ ['j', 's', 'o', 'n', ':'] := by decide
  have hpre2 : indexChars (['j', 's', 'o', 'n', ':'] ++ ['"']) pre.data = none := by
    have h1 : (indexChars ("json:\"" : String).data pre.data).isSome = false := hpre
    rw [hsep] at h1
    cases hx : indexChars (['j', 's', 'o', 'n', ':'] ++ ['"']) pre.data with
    | none => rfl
    | some k =>
      rw [hx] at h1
      cases h1
  have hend2 : ¬ ['j', 's', 'o', 'n', ':'] <:+ v.data := by
    intro hs
    have h1 : (['j', 's', 'o', 'n', ':'] : List Char).isSuffixOf v.data = true :=
      List.isSuffixOf_iff_suffix.mpr hs
    have h2 : (['j', 's', 'o', 'n', ':'] : List Char).isSuffixOf v.data = false := hend
    rw [h1] at h2
    cases h2
  have hdata : (pre ++ "json:\"" ++ v ++ "\"" ++ post).data
      = pre.data ++ (['j', 's', 'o', 'n', ':'] ++ ['"']) ++ (v.data ++ '"' :: post.data) := by
    rw [String.data_append, String.data_append, String.data_append, String.data_append,
      hsep, hone]
    simp only [List.append_assoc, List.singleton_append, List.cons_append, List.nil_append]
  have key : ∃ w, (splitChars (['j', 's', 'o', 'n', ':'] ++ ['"'])
      (pre ++ "json:\"" ++ v ++ "\"" ++ post).data.length
      (pre ++ "json:\"" ++ v ++ "\"" ++ post).data)[1]? = some (v.data ++ '"' :: w) := by
    rw [hdata]
    refine splitChars_second hq hpre2 hv hend2 _ ?_
    simp only [List.length_append, List.length_cons, List.length_nil]
    omega
  obtain ⟨w, hw⟩ := key
  refine ⟨String.mk (v.data ++ '"' :: w), ?_, ?_⟩
  · rw [Split_getElem? _ _ (by decide), hsep, hw]
    rfl
  · rw [Split_getElem? _ _ (by decide), hone]
    show Option.map String.mk
      ((splitChars ['"'] (v.data ++ '"' :: w).length (v.data ++ '"' :: w))[0]?) = some v
    rw [splitChars_single_head v.data w hv _ (by simp)]
    rfl

/-- A tag that holds `json:"` holds `json:`. -/
theorem Contains_json (pre post : String) :
    Contains (pre ++ "json:\"" ++ post) "json:" = true := by
  have hsep : ("json:\"" : String).data = ("json:" : String).data ++ ['"'] := rfl
  have hdata : (pre ++ "json:\"" ++ post).data
      = pre.data ++ ("json:" : String).data ++ ('"' :: post.data) := by
    rw [String.data_append, String.data_append, hsep]
    simp only [List.append_assoc, List.singleton_append, List.cons_append, List.nil_append]
  show (indexChars ("json:" : String).data (pre ++ "json:\"" ++ post).data).isSome = true
  rw [hdata]
  exact indexChars_isSome_of_infix _ _ _

/-- The characters of a joined list that has a first element: the first
element, then nothing or a separator and the rest. -/
theorem Join_cons_data (seg : String) (mods : List String) (sep : String) :
    (Join (seg :: mods) sep).data = seg.data ∨
      ∃ w, mods ≠ [] ∧ (Join (seg :: mods) sep).data = seg.data ++ sep.data ++ w := by
  cases mods with
  | nil => exact Or.inl rfl
  | cons m ms =>
    refine Or.inr ⟨(Join (m :: ms) sep).data, List.cons_ne_nil _ _, ?_⟩
    show (seg ++ sep ++ Join (m :: ms) sep).data = _
    rw [String.data_append, String.data_append]

/-- The first comma-separated segment, as `Split(value, ",")[0]` finds it. -/
theorem Split_comma_head (seg : String) (mods : List String) (hcomma : ',' ∉ seg.data) :
    (Split (Join (seg :: mods) ",") ",")[0]? = some seg := by
  have hone : ("," : String).data = [','] := rfl
  rw [Split_getElem? _ _ (by decide), hone]
  rcases Join_cons_data seg mods "," with h | ⟨w, -, h⟩
  · rw [h, splitChars_single_whole seg.data hcomma]
    rfl
  · rw [h, hone]
    have hshape : seg.data ++ [','] ++ w = seg.data ++ ',' :: w := by simp
    rw [hshape, splitChars_single_head seg.data w hcomma _ (by simp)]
    rfl

/-- A joined list equals its first element only when nothing follows it, if the
first element is without separator character. -/
theorem Join_comma_ne {seg : String} {mods : List String} {t : String}
    (ht : ',' ∉ t.data) (h : Join (seg :: mods) "," = t) :
    seg = t := by
  rcases Join_cons_data seg mods "," with h1 | ⟨w, -, h1⟩
  · rw [h] at h1
    exact (String.ext h1).symm
  · rw [h] at h1
    exfalso
    apply ht
    rw [h1]
    have hone : ("," : String).data = [','] := rfl
    rw [hone]
    simp

end strings

/-! ## The loop of `convertStruct` -/

/-- The line `fmt.Sprintf("  %s: %s;", fieldName, fieldType)`. -/
theorem Converter.convertField_no_tag (c : Converter) (field : ast.Field)
    (h : field.Tag = none) :
    c.convertField field = some (.emit ("  " ++ Converter.declaredName field ++ ": " ++
      c.getTypeScriptType field.Typ ++ ";")) := by
  simp [Converter.convertField, h]

/-- What the loop body does with a tag whose first `json:"` is followed by a value
`v` without quote that does not end in `json:`. -/
theorem Converter.convertField_json (c : Converter) (field : ast.Field)
    (pre v post : String)
    (htag : field.Tag = some (pre ++ "json:\"" ++ v ++ "\"" ++ post))
    (hpre : strings.Contains pre "json:\"" = false) (hv : '"' ∉ v.data)
    (hend : strings.HasSuffix v "json:" = false) :
    c.convertField field =
      if v = "-" then some .skip
      else if v ≠ "" then
        match (strings.Split v ",")[0]? with
        | none => none
        | some first =>
          some (.emit ("  " ++ first ++ ": " ++ c.getTypeScriptType field.Typ ++ ";"))
      else some (.emit ("  " ++ Converter.declaredName field ++ ": " ++
        c.getTypeScriptType field.Typ ++ ";")) := by
  obtain ⟨rest, h1, h2⟩ := strings.jsonTag_extract pre v post hpre hv hend
  have hc : strings.Contains (pre ++ "json:\"" ++ v ++ "\"" ++ post) "json:" = true := by
    have := strings.Contains_json pre (v ++ "\"" ++ post)
    simpa [String.append_assoc] using this
  simp only [Converter.convertField, htag, hc, h1, h2, if_true]

/-- The slice already built is carried through the loop unchanged. -/
theorem Converter.convertFields_acc (c : Converter) :
    ∀ (fs : List ast.Field) (acc : List String),
      c.convertFields fs acc = (c.convertFields fs []).map (acc ++ ·)
  | [], acc => by simp [Converter.convertFields]
  | f :: fs, acc => by
    cases hf : c.convertField f with
    | none => simp [Converter.convertFields, hf]
    | some step =>
      cases step with
      | skip =>
        simp only [Converter.convertFields, hf]
        exact Converter.convertFields_acc c fs acc
      | emit line =>
        simp only [Converter.convertFields, hf]
        rw [Converter.convertFields_acc c fs (acc ++ [line]),
          Converter.convertFields_acc c fs ([] ++ [line])]
        cases c.convertFields fs [] <;> simp

/-- The loop over two field lists one after the other. -/
theorem Converter.convertFields_append (c : Converter) :
    ∀ (fs gs : List ast.Field),
      c.convertFields (fs ++ gs) [] =
        match c.convertFields fs [], c.convertFields gs [] with
        | some l1, some l2 => some (l1 ++ l2)
        | _, _ => none
  | [], gs => by
    cases h : c.convertFields gs [] <;> simp [Converter.convertFields, h]
  | f :: fs, gs => by
    cases hf : c.convertField f with
    | none => simp [Converter.convertFields, hf]
    | some step =>
      cases step with
      | skip =>
        simp only [List.cons_append, Converter.convertFields, hf]
        exact Converter.convertFields_append c fs gs
      | emit line =>
        simp only [List.cons_append, Converter.convertFields, hf]
        show c.convertFields (fs ++ gs) ([] ++ [line]) = _
        rw [Converter.convertFields_acc c (fs ++ gs) ([] ++ [line]),
          Converter.convertFields_acc c fs ([] ++ [line]),
          Converter.convertFields_append c fs gs]
        cases c.convertFields fs [] <;> cases c.convertFields gs [] <;> simp

/-- A field the loop body turns into a line, between fields that do not panic. -/
theorem Converter.convertFields_emit (c : Converter) (before after : List ast.Field)
    (field : ast.Field) (line : String) (l1 l2 : List String)
    (hf : c.convertField field = some (.emit line))
    (hb : c.convertFields before [] = some l1) (ha : c.convertFields after [] = some l2) :
    c.convertFields (before ++ field :: after) [] = some (l1 ++ [line] ++ l2) := by
  have hcons : c.convertFields (field :: after) [] = some ([line] ++ l2) := by
    simp only [Converter.convertFields, hf]
    rw [Converter.convertFields_acc, ha]
    rfl
  rw [Converter.convertFields_append, hb, hcons]
  simp

/-- A field the loop body skips leaves no trace. -/
theorem Converter.convertFields_skip (c : Converter) (before after : List ast.Field)
    (field : ast.Field) (hf : c.convertField field = some .skip) :
    c.convertFields (before ++ field :: after) [] = c.convertFields (before ++ after) [] := by
  have hcons : c.convertFields (field :: after) [] = c.convertFields after [] := by
    simp only [Converter.convertFields, hf]
  rw [Converter.convertFields_append, Converter.convertFields_append, hcons]

/-! ## The type mapper -/

/-- C1: for every name of the primitive table that an identifier can carry,
`getTypeScriptType` of the identifier is the documented primitive: `string` for
string, `number` for the twelve integer and floating-point names, `boolean` for
bool. -/
theorem getTypeScriptType_primitive_table :
    New.getTypeScriptType (.Ident "string") = "string" ∧
    New.getTypeScriptType (.Ident "int") = "number" ∧
    New.getTypeScriptType (.Ident "int8") = "number" ∧
    New.getTypeScriptType (.Ident "int16") = "number" ∧
    New.getTypeScriptType (.Ident "int32") = "number" ∧
    New.getTypeScriptType (.Ident "int64") = "number" ∧
    New.getTypeScriptType (.Ident "uint") = "number" ∧
    New.getTypeScriptType (.Ident "uint8") = "number" ∧
    New.getTypeScriptType (.Ident "uint16") = "number" ∧
    New.getTypeScriptType (.Ident "uint32") = "number" ∧
    New.getTypeScriptType (.Ident "uint64") = "number" ∧
    New.getTypeScriptType (.Ident "float32") = "number" ∧
    New.getTypeScriptType (.Ident "float64") = "number" ∧
    New.getTypeScriptType (.Ident "bool") = "boolean" := by
  decide

/-- A name that is not a key of the table is not found by the lookup. -/
theorem lookup_eq_none_of_not_key (name : String) :
    ∀ (table : List (String × String)), name ∉ table.map Prod.fst → table.lookup name = none
  | [], _ => rfl
  | (k, v) :: rest, h => by
    have hk : name ≠ k := fun e => h (by simp [e])
    have hrest : name ∉ rest.map Prod.fst := fun hm => h (by simp at hm ⊢; exact Or.inr hm)
    have hb : (name == k) = false := by simpa using hk
    simp only [List.lookup, hb]
    exact lookup_eq_none_of_not_key name rest hrest

/-- C2: an identifier whose name is not a key of the converter's table (the
comparison is exact, so `String` and `Address` are not keys of the primitive
table) is mapped to its own name, unchanged. -/
theorem getTypeScriptType_unknown_ident (c : Converter) (name : String)
    (h : name ∉ c.typeMap.map Prod.fst) :
    c.getTypeScriptType (.Ident name) = name := by
  simp only [Converter.getTypeScriptType, lookup_eq_none_of_not_key name c.typeMap h]

/-- C2 at the primitive table, for the names `Address` and `String`. -/
theorem getTypeScriptType_unknown_ident_witness :
    New.getTypeScriptType (.Ident "Address") = "Address" ∧
    New.getTypeScriptType (.Ident "String") = "String" :=
  ⟨getTypeScriptType_unknown_ident New "Address" (by decide),
   getTypeScriptType_unknown_ident New "String" (by decide)⟩

/-- C3: pointer transparency, the type of `*x` is the type of `x`, with nothing
added. -/
theorem getTypeScriptType_pointer (c : Converter) (x : ast.Expr) :
    c.getTypeScriptType (.StarExpr x) = c.getTypeScriptType x := by
  simp only [Converter.getTypeScriptType]

/-- C4: the type of an array `[n]x` or a slice `[]x` is the type of `x` followed
by `[]`. -/
theorem getTypeScriptType_array (c : Converter) (len : Option ast.Expr) (x : ast.Expr) :
    c.getTypeScriptType (.ArrayType len x) = c.getTypeScriptType x ++ "[]" := by
  simp only [Converter.getTypeScriptType]

/-- C5: the type of `map[k]v` is `Record<`, the type of `k`, a comma and a
blank, the type of `v`, and `>`: key first, value second. -/
theorem getTypeScriptType_map (c : Converter) (k v : ast.Expr) :
    c.getTypeScriptType (.MapType k v) =
      "Record<" ++ c.getTypeScriptType k ++ ", " ++ c.getTypeScriptType v ++ ">" := by
  simp only [Converter.getTypeScriptType]

/-- C6: a type expression that is no identifier, array, map or pointer is mapped
to `any`; the mapper is a total function, so it has a result on every
expression. -/
theorem getTypeScriptType_fallback (c : Converter) (e : ast.Expr)
    (hIdent : ∀ n, e ≠ .Ident n) (hArray : ∀ l x, e ≠ .ArrayType l x)
    (hMap : ∀ k v, e ≠ .MapType k v) (hStar : ∀ x, e ≠ .StarExpr x) :
    c.getTypeScriptType e = "any" := by
  cases e with
  | Ident n => exact absurd rfl (hIdent n)
  | ArrayType l x => exact absurd rfl (hArray l x)
  | MapType k v => exact absurd rfl (hMap k v)
  | StarExpr x => exact absurd rfl (hStar x)
  | SelectorExpr _ _ => simp only [Converter.getTypeScriptType]
  | ChanType _ => simp only [Converter.getTypeScriptType]
  | FuncType => simp only [Converter.getTypeScriptType]
  | InterfaceType => simp only [Converter.getTypeScriptType]
  | StructType => simp only [Converter.getTypeScriptType]
  | ParenExpr _ => simp only [Converter.getTypeScriptType]
  | BasicLit _ => simp only [Converter.getTypeScriptType]
  | Ellipsis => simp only [Converter.getTypeScriptType]

/-- C6 at a channel type, a function type and an empty interface type. -/
theorem getTypeScriptType_fallback_witness :
    New.getTypeScriptType (.ChanType (.Ident "int")) = "any" ∧
    New.getTypeScriptType .FuncType = "any" ∧
    New.getTypeScriptType .InterfaceType = "any" :=
  ⟨getTypeScriptType_fallback New _ (fun _ h => by cases h) (fun _ _ h => by cases h)
     (fun _ _ h => by cases h) (fun _ h => by cases h),
   getTypeScriptType_fallback New _ (fun _ h => by cases h) (fun _ _ h => by cases h)
     (fun _ _ h => by cases h) (fun _ h => by cases h),
   getTypeScriptType_fallback New _ (fun _ h => by cases h) (fun _ _ h => by cases h)
     (fun _ _ h => by cases h) (fun _ h => by cases h)⟩

/-! ## The json tag of a field -/

/-- C7, as stated, fails.  The tag `json:"ajson:"` has the value `ajson:`, whose
first comma-separated segment is non-empty and not `-`, yet the emitted name is
`a`: the tag is cut at every `json:"`, and the end `json:` of the value with the
closing quote is such a cut.  And in the tag `myjson:"x" json:"y"` the json
directive has the value `y`, yet the emitted name is `x`: the text `json:"` is
looked for anywhere, and it is first found inside the key `myjson`. -/
theorem convertStruct_alias_ending_in_json_counterexample :
    New.convertStruct "T" ⟨[⟨["A"], .Ident "int", some "`json:\"ajson:\"`"⟩]⟩
      = some "interface T \x7b\n  a: number;\n\x7d" ∧
    New.convertStruct "T" ⟨[⟨["A"], .Ident "int", some "`json:\"ajson:\"`"⟩]⟩
      ≠ some "interface T \x7b\n  ajson:: number;\n\x7d" ∧
    New.convertStruct "T" ⟨[⟨["A"], .Ident "int", some "`myjson:\"x\" json:\"y\"`"⟩]⟩
      = some "interface T \x7b\n  x: number;\n\x7d" := by
  decide

/-- C7, amended: let the first `json:"` of a field's tag be followed by a value and
a closing quote, where the value is the comma-separated list of a segment `seg`
and modifiers `mods`, holds no quote and does not end in `json:`.  If `seg` is
non-empty and not `-`, then `convertStruct` emits for the field the line of two
blanks, `seg`, a colon and a blank, the mapped field type and a semicolon, at the
field's place among the lines of the other fields; the modifiers change neither
name nor type. -/
theorem convertStruct_json_alias_line (c : Converter) (name : String)
    (before after : List ast.Field) (l1 l2 : List String) (field : ast.Field)
    (pre post seg : String) (mods : List String)
    (htag : field.Tag =
      some (pre ++ "json:\"" ++ strings.Join (seg :: mods) "," ++ "\"" ++ post))
    (hpre : strings.Contains pre "json:\"" = false)
    (hquote : '"' ∉ (strings.Join (seg :: mods) ",").data)
    (hend : strings.HasSuffix (strings.Join (seg :: mods) ",") "json:" = false)
    (hcomma : ',' ∉ seg.data) (hne : seg ≠ "") (hdash : seg ≠ "-")
    (hbefore : c.convertFields before [] = some l1)
    (hafter : c.convertFields after [] = some l2) :
    c.convertStruct name ⟨before ++ field :: after⟩ =
      some ("interface " ++ name ++ " \x7b\n" ++
        strings.Join (l1 ++ ["  " ++ seg ++ ": " ++ c.getTypeScriptType field.Typ ++ ";"] ++ l2)
          "\n" ++ "\n\x7d") := by
  have hv1 : strings.Join (seg :: mods) "," ≠ "-" := by
    intro h
    exact hdash (strings.Join_comma_ne (by decide) h)
  have hv2 : strings.Join (seg :: mods) "," ≠ "" := by
    intro h
    exact hne (strings.Join_comma_ne (by decide) h)
  have hfield := c.convertField_json field pre _ post htag hpre hquote hend
  rw [if_neg hv1, if_pos hv2, strings.Split_comma_head seg mods hcomma] at hfield
  have hloop := c.convertFields_emit before after field _ l1 l2 hfield hbefore hafter
  simp only [Converter.convertStruct, hloop]

/-- C7, amended, at the struct `OmitDemo` of the tests: the field
`A int` tagged `json:"a,omitempty"` gives the line `a: number;`. -/
theorem convertStruct_json_alias_line_witness :
    New.convertStruct "OmitDemo"
      ⟨[⟨["A"], .Ident "int", some "`json:\"a,omitempty\"`"⟩,
        ⟨["B"], .Ident "int", some "`json:\"-\"`"⟩]⟩
      = some "interface OmitDemo \x7b\n  a: number;\n\x7d" :=
  (convertStruct_json_alias_line New "OmitDemo" []
    [⟨["B"], .Ident "int", some "`json:\"-\"`"⟩] [] []
    ⟨["A"], .Ident "int", some "`json:\"a,omitempty\"`"⟩ "`" "`" "a" ["omitempty"]
    (by decide) (by decide) (by decide) (by decide) (by decide) (by decide) (by decide)
    (by decide) (by decide)).trans (by decide)

/-- C8, as stated, fails: the value `-,omitempty` has the first segment `-`, and
the field is not skipped but emitted under the name `-`; only the value that is
`-` as a whole is compared. -/
theorem convertStruct_dash_with_modifier_counterexample :
    New.convertStruct "T" ⟨[⟨["A"], .Ident "int", some "`json:\"-,omitempty\"`"⟩]⟩
      = some "interface T \x7b\n  -: number;\n\x7d" := by
  decide

/-- C8, amended: a field whose tag has, at its first `json:"`, the value `-` and
nothing else before the closing quote is skipped: the block of the struct is the
block of the struct without that field. -/
theorem convertStruct_json_dash_skipped (c : Converter) (name : String)
    (before after : List ast.Field) (field : ast.Field) (pre post : String)
    (htag : field.Tag = some (pre ++ "json:\"-\"" ++ post))
    (hpre : strings.Contains pre "json:\"" = false) :
    c.convertStruct name ⟨before ++ field :: after⟩ =
      c.convertStruct name ⟨before ++ after⟩ := by
  have hshape : pre ++ "json:\"-\"" ++ post = pre ++ "json:\"" ++ "-" ++ "\"" ++ post := by
    have h1 : ("json:\"-\"" : String) = "json:\"" ++ "-" ++ "\"" := by decide
    rw [h1]
    simp only [String.append_assoc]
  rw [hshape] at htag
  have hfield := c.convertField_json field pre "-" post htag hpre (by decide) (by decide)
  rw [if_pos rfl] at hfield
  simp only [Converter.convertStruct, c.convertFields_skip before after field hfield]

/-- C8, amended, at the struct `OmitDemo` of the tests: with or without the field
`B int` tagged `json:"-"` the block is the same. -/
theorem convertStruct_json_dash_skipped_witness :
    New.convertStruct "OmitDemo"
      ⟨[⟨["A"], .Ident "int", some "`json:\"a,omitempty\"`"⟩] ++
        ⟨["B"], .Ident "int", some "`json:\"-\"`"⟩ :: []⟩
      = New.convertStruct "OmitDemo"
        ⟨[⟨["A"], .Ident "int", some "`json:\"a,omitempty\"`"⟩] ++ []⟩ :=
  convertStruct_json_dash_skipped New "OmitDemo"
    [⟨["A"], .Ident "int", some "`json:\"a,omitempty\"`"⟩] []
    ⟨["B"], .Ident "int", some "`json:\"-\"`"⟩ "`" "`" (by decide) (by decide)

/-- C9: on the struct `type T struct { A int` with the tag `json:name`, which
holds `json:` without a quote after it, `convertStruct` does not return: the
index 1 of the split at `json:"` is out of range.  The claim asks for the block
with the line `A: number;`. -/
theorem convertStruct_json_without_quote_panics :
    New.convertStruct "T" ⟨[⟨["A"], .Ident "int", some "`json:name`"⟩]⟩ = none ∧
    New.convertStruct "T" ⟨[⟨["A"], .Ident "int", none⟩]⟩
      = some "interface T \x7b\n  A: number;\n\x7d" := by
  decide

/-- C10: on the field `A int` tagged `json:",omitempty"`, whose alias is empty,
`convertStruct` emits a line with an empty name instead of the declared name `A`;
on the tag `json:""` the declared name stands. -/
theorem convertStruct_empty_alias_with_modifier :
    New.convertStruct "T" ⟨[⟨["A"], .Ident "int", some "`json:\",omitempty\"`"⟩]⟩
      = some "interface T \x7b\n  : number;\n\x7d" ∧
    New.convertStruct "T" ⟨[⟨["A"], .Ident "int", some "`json:\"\"`"⟩]⟩
      = some "interface T \x7b\n  A: number;\n\x7d" := by
  decide

/-! ## Lines and blocks -/

/-- A tag without the text `json:` leaves the declared or derived name. -/
theorem Converter.convertField_no_json (c : Converter) (field : ast.Field) (tag : String)
    (htag : field.Tag = some tag) (hno : strings.Contains tag "json:" = false) :
    c.convertField field = some (.emit ("  " ++ Converter.declaredName field ++ ": " ++
      c.getTypeScriptType field.Typ ++ ";")) := by
  simp [Converter.convertField, htag, hno]

/-- A field without tag, or with a tag without the text `json:`, gives the line
of its declared or derived name. -/
theorem Converter.convertField_untagged (c : Converter) (field : ast.Field)
    (htag : field.Tag = none ∨
      ∃ tag, field.Tag = some tag ∧ strings.Contains tag "json:" = false) :
    c.convertField field = some (.emit ("  " ++ Converter.declaredName field ++ ": " ++
      c.getTypeScriptType field.Typ ++ ";")) := by
  rcases htag with h | ⟨tag, h, hno⟩
  · exact c.convertField_no_tag field h
  · exact c.convertField_no_json field tag h hno

/-- The block of a struct in which one field gives a line and the fields before
and after it give the lines `l1` and `l2`. -/
theorem Converter.convertStruct_emit (c : Converter) (name : String)
    (before after : List ast.Field) (field : ast.Field) (line : String)
    (l1 l2 : List String) (hf : c.convertField field = some (.emit line))
    (hb : c.convertFields before [] = some l1) (ha : c.convertFields after [] = some l2) :
    c.convertStruct name ⟨before ++ field :: after⟩ =
      some ("interface " ++ name ++ " \x7b\n" ++ strings.Join (l1 ++ [line] ++ l2) "\n" ++
        "\n\x7d") := by
  simp only [Converter.convertStruct, c.convertFields_emit before after field line l1 l2 hf hb ha]

/-- Every line the loop body emits is two blanks, a name, a colon and a blank, the
mapped type of the field and a semicolon. -/
theorem Converter.convertField_line_shape (c : Converter) (field : ast.Field) (line : String)
    (h : c.convertField field = some (.emit line)) :
    ∃ emitted, line = "  " ++ emitted ++ ": " ++ c.getTypeScriptType field.Typ ++ ";" := by
  simp only [Converter.convertField] at h
  split at h
  · exact ⟨_, by injection h with h; injection h with h; exact h.symm⟩
  · split at h
    · split at h
      · cases h
      · split at h
        · cases h
        · split at h
          · cases h
          · split at h
            · split at h
              · cases h
              · exact ⟨_, by injection h with h; injection h with h; exact h.symm⟩
            · exact ⟨_, by injection h with h; injection h with h; exact h.symm⟩
    · exact ⟨_, by injection h with h; injection h with h; exact h.symm⟩

/-- The lines of the loop are the lines of the fields that are not skipped, in the
order of the fields. -/
theorem Converter.convertFields_eq_filterMap (c : Converter) :
    ∀ (fs : List ast.Field) (lines : List String),
      c.convertFields fs [] = some lines → lines = fs.filterMap c.fieldLine
  | [], lines, h => by
    simp only [Converter.convertFields, Option.some.injEq] at h
    simp [← h]
  | f :: fs, lines, h => by
    cases hf : c.convertField f with
    | none => simp [Converter.convertFields, hf] at h
    | some step =>
      cases step with
      | skip =>
        simp only [Converter.convertFields, hf] at h
        have ih := Converter.convertFields_eq_filterMap c fs lines h
        simp [List.filterMap_cons, Converter.fieldLine, hf, ih]
      | emit line =>
        simp only [Converter.convertFields, hf] at h
        rw [Converter.convertFields_acc] at h
        cases hrest : c.convertFields fs [] with
        | none => simp [hrest] at h
        | some ls =>
          have ih := Converter.convertFields_eq_filterMap c fs ls hrest
          simp only [hrest, Option.map_some', Option.some.injEq] at h
          simp [List.filterMap_cons, Converter.fieldLine, hf, ← h, ← ih]

/-! ## Tags on which the loop does not panic -/

namespace strings

/-- A text without the separator is the only piece of its split. -/
theorem splitChars_none {sep s : List Char} (h : indexChars sep s = none) (n : Nat) :
    splitChars sep n s = [s] := by
  cases n with
  | zero => rfl
  | succ k => simp only [splitChars, h]

/-- A split has a first piece. -/
theorem splitChars_head_isSome (sep : List Char) (n : Nat) (s : List Char) :
    ∃ x, (splitChars sep n s)[0]? = some x := by
  cases n with
  | zero => exact ⟨s, rfl⟩
  | succ k =>
    cases h : indexChars sep s with
    | none => exact ⟨s, by simp only [splitChars, h]; rfl⟩
    | some m => exact ⟨s.take m, by simp only [splitChars, h, List.getElem?_cons_zero]⟩

/-- The first piece of `Split` exists, for a non-empty separator. -/
theorem Split_head_isSome (s sep : String) (h : sep.data ≠ []) :
    ∃ x, (Split s sep)[0]? = some x := by
  obtain ⟨x, hx⟩ := splitChars_head_isSome sep.data s.data.length s.data
  exact ⟨String.mk x, by rw [Split_getElem? s sep h, hx]; rfl⟩

/-- A non-empty separator is not found in the empty text. -/
theorem indexChars_nil {sep : List Char} (h : sep ≠ []) : indexChars sep [] = none := by
  cases sep with
  | nil => exact absurd rfl h
  | cons a as => simp [indexChars, List.isPrefixOf]

/-- The second piece of `Split` exists exactly when the text holds the
separator. -/
theorem Split_second_isSome_iff (s sep : String) (h : sep.data ≠ []) :
    (∃ r, (Split s sep)[1]? = some r) ↔ Contains s sep = true := by
  rw [Split_getElem? s sep h]
  show _ ↔ (indexChars sep.data s.data).isSome = true
  cases hi : indexChars sep.data s.data with
  | none =>
    rw [splitChars_none hi]
    simp
  | some m =>
    have hpos : s.data ≠ [] := by
      intro he
      rw [he, indexChars_nil h] at hi
      cases hi
    obtain ⟨k, hk⟩ : ∃ k, s.data.length = k + 1 :=
      ⟨s.data.length - 1, by have := List.length_pos.mpr hpos; omega⟩
    obtain ⟨x, hx⟩ := splitChars_head_isSome sep.data k (s.data.drop (m + sep.data.length))
    have h1 : (splitChars sep.data (k + 1) s.data)[1]? = some x := by
      simp only [splitChars, hi]
      simpa using hx
    rw [hk, h1]
    simp

/-- A tag that holds `json:"` holds `json:`. -/
theorem Contains_json_of_quote (tag : String) (h : Contains tag "json:\"" = true) :
    Contains tag "json:" = true := by
  have h1 : (indexChars ("json:\"" : String).data tag.data).isSome = true := h
  cases hi : indexChars ("json:\"" : String).data tag.data with
  | none => rw [hi] at h1; cases h1
  | some m =>
    obtain ⟨⟨t, ht⟩, -⟩ := indexChars_some_prefix tag.data m hi
    have hsplit : tag.data = tag.data.take m ++ ("json:\"" : String).data ++ t := by
      rw [List.append_assoc, ht, List.take_append_drop]
    have hs : tag = String.mk (tag.data.take m) ++ "json:\"" ++ String.mk t := by
      apply String.ext
      rw [String.data_append, String.data_append]
      exact hsplit
    rw [hs]
    exact Contains_json _ _

end strings

/-- The loop body in terms of the text `jsonTag`, for a tag that holds `json:`. -/
theorem Converter.convertField_of_jsonTag (c : Converter) (field : ast.Field) (tag : String)
    (htag : field.Tag = some tag) (hc : strings.Contains tag "json:" = true) :
    c.convertField field =
      match Converter.jsonTag tag with
      | none => none
      | some v =>
        if v = "-" then some .skip
        else if v ≠ "" then
          match (strings.Split v ",")[0]? with
          | none => none
          | some first =>
            some (.emit ("  " ++ first ++ ": " ++ c.getTypeScriptType field.Typ ++ ";"))
        else some (.emit ("  " ++ Converter.declaredName field ++ ": " ++
          c.getTypeScriptType field.Typ ++ ";")) := by
  simp only [Converter.convertField, htag, hc, Converter.jsonTag, if_true]
  cases (strings.Split tag "json:\"")[1]? with
  | none => rfl
  | some rest =>
    cases (strings.Split rest "\"")[0]? with
    | none => rfl
    | some v => rfl

/-- A tag that holds `json:"` has a text `jsonTag`. -/
theorem Converter.jsonTag_isSome (tag : String) (h : strings.Contains tag "json:\"" = true) :
    ∃ v, Converter.jsonTag tag = some v := by
  obtain ⟨rest, hr⟩ := (strings.Split_second_isSome_iff tag "json:\"" (by decide)).mpr h
  obtain ⟨v, hv⟩ := strings.Split_head_isSome rest "\"" (by decide)
  exact ⟨v, by simp only [Converter.jsonTag, hr, hv]⟩

/-- A tag without `json:"` has no text `jsonTag`. -/
theorem Converter.jsonTag_eq_none (tag : String) (h : strings.Contains tag "json:\"" = false) :
    Converter.jsonTag tag = none := by
  cases hx : (strings.Split tag "json:\"")[1]? with
  | none => simp only [Converter.jsonTag, hx]
  | some r =>
    have := (strings.Split_second_isSome_iff tag "json:\"" (by decide)).mp ⟨r, hx⟩
    rw [this] at h
    cases h

/-- On a field with a well-formed tag the loop body skips the field when its
`jsonTag` is `-`, and emits one line otherwise. -/
theorem Converter.convertField_wellFormed (c : Converter) (field : ast.Field)
    (hw : tagWellFormed field = true) :
    (dashExcluded field = true ∧ c.convertField field = some .skip) ∨
    (dashExcluded field = false ∧ ∃ line, c.convertField field = some (.emit line)) := by
  cases htag : field.Tag with
  | none =>
    exact Or.inr ⟨by simp [dashExcluded, htag], _, c.convertField_no_tag field htag⟩
  | some tag =>
    cases hc : strings.Contains tag "json:" with
    | false =>
      have hq : strings.Contains tag "json:\"" = false := by
        cases hq : strings.Contains tag "json:\"" with
        | false => rfl
        | true =>
          rw [strings.Contains_json_of_quote tag hq] at hc
          cases hc
      refine Or.inr ⟨?_, _, c.convertField_no_json field tag htag hc⟩
      simp [dashExcluded, htag, Converter.jsonTag_eq_none tag hq]
    | true =>
      have hq : strings.Contains tag "json:\"" = true := by
        simpa [tagWellFormed, htag, hc] using hw
      obtain ⟨v, hv⟩ := Converter.jsonTag_isSome tag hq
      have hfield := c.convertField_of_jsonTag field tag htag hc
      rw [hv] at hfield
      by_cases hdash : v = "-"
      · refine Or.inl ⟨?_, ?_⟩
        · simp [dashExcluded, htag, hv, hdash]
        · simpa [hdash] using hfield
      · refine Or.inr ⟨?_, ?_⟩
        · simp [dashExcluded, htag, hv, hdash]
        · obtain ⟨first, hfirst⟩ := strings.Split_head_isSome v "," (by decide)
          by_cases hempty : v = ""
          · exact ⟨_, by simpa [hdash, hempty] using hfield⟩
          · exact ⟨_, by simpa [hdash, hempty, hfirst] using hfield⟩

/-- With well-formed tags the loop runs to its end. -/
theorem Converter.convertFields_wellFormed (c : Converter) :
    ∀ (fs : List ast.Field), (∀ f ∈ fs, tagWellFormed f = true) →
      ∃ lines, c.convertFields fs [] = some lines
  | [], _ => ⟨[], rfl⟩
  | f :: fs, h => by
    obtain ⟨ls, hls⟩ := Converter.convertFields_wellFormed c fs
      (fun g hg => h g (List.mem_cons_of_mem _ hg))
    rcases c.convertField_wellFormed f (h f (List.mem_cons_self _ _)) with
      ⟨-, hf⟩ | ⟨-, line, hf⟩
    · exact ⟨ls, by simp only [Converter.convertFields, hf, hls]⟩
    · refine ⟨[line] ++ ls, ?_⟩
      simp only [Converter.convertFields, hf]
      rw [Converter.convertFields_acc, hls]
      rfl

/-! ## Names and lines of fields -/

/-- C11, as stated, fails: the tags `myjson:"x"` and `db:"json:"` hold no json
directive (no key json), yet the field `A` is not emitted under its declared
name but under `x`, and under a backquote: the converter looks for the text
`json:"` anywhere in the tag, also inside another key or inside a value. -/
theorem convertStruct_declared_name_counterexample :
    New.convertStruct "T" ⟨[⟨["A"], .Ident "int", some "`myjson:\"x\"`"⟩]⟩
      = some "interface T \x7b\n  x: number;\n\x7d" ∧
    New.convertStruct "T" ⟨[⟨["A"], .Ident "int", some "`myjson:\"x\"`"⟩]⟩
      ≠ some "interface T \x7b\n  A: number;\n\x7d" ∧
    New.convertStruct "T" ⟨[⟨["A"], .Ident "int", some "`db:\"json:\"`"⟩]⟩
      = some "interface T \x7b\n  `: number;\n\x7d" := by
  decide

/-- C11, amended: a named field that has no tag, or whose tag does not hold the
text `json:` anywhere, is emitted as the line of two blanks, its first declared
name verbatim, a colon and a blank, the mapped field type and a semicolon, at its
place among the lines of the other fields, when no other field makes the loop
panic. -/
theorem convertStruct_declared_name_line (c : Converter) (name : String)
    (before after : List ast.Field) (l1 l2 : List String) (field : ast.Field)
    (declared : String) (others : List String)
    (hnames : field.Names = declared :: others)
    (htag : field.Tag = none ∨
      ∃ tag, field.Tag = some tag ∧ strings.Contains tag "json:" = false)
    (hbefore : c.convertFields before [] = some l1)
    (hafter : c.convertFields after [] = some l2) :
    c.convertStruct name ⟨before ++ field :: after⟩ =
      some ("interface " ++ name ++ " \x7b\n" ++
        strings.Join
          (l1 ++ ["  " ++ declared ++ ": " ++ c.getTypeScriptType field.Typ ++ ";"] ++ l2)
          "\n" ++ "\n\x7d") := by
  have hfield := c.convertField_untagged field htag
  have hname : Converter.declaredName field = declared := by
    simp only [Converter.declaredName, hnames]
  rw [hname] at hfield
  exact c.convertStruct_emit name before after field _ l1 l2 hfield hbefore hafter

/-- C11, amended, at the struct `Product` of the tests, for its field
`Title string` without tag and with the tag `xml:"title"`. -/
theorem convertStruct_declared_name_line_witness :
    New.convertStruct "Product"
      ⟨[⟨["ID"], .Ident "int", none⟩] ++ ⟨["Title"], .Ident "string", none⟩ ::
        [⟨["Price"], .Ident "float64", none⟩]⟩
      = some "interface Product \x7b\n  ID: number;\n  Title: string;\n  Price: number;\n\x7d" ∧
    New.convertStruct "Product"
      ⟨[⟨["ID"], .Ident "int", none⟩] ++
        ⟨["Title"], .Ident "string", some "`xml:\"title\"`"⟩ ::
        [⟨["Price"], .Ident "float64", none⟩]⟩
      = some "interface Product \x7b\n  ID: number;\n  Title: string;\n  Price: number;\n\x7d" :=
  ⟨(convertStruct_declared_name_line New "Product" [⟨["ID"], .Ident "int", none⟩]
      [⟨["Price"], .Ident "float64", none⟩] ["  ID: number;"] ["  Price: number;"]
      ⟨["Title"], .Ident "string", none⟩ "Title" [] rfl (Or.inl rfl)
      (by decide) (by decide)).trans (by decide),
   (convertStruct_declared_name_line New "Product" [⟨["ID"], .Ident "int", none⟩]
      [⟨["Price"], .Ident "float64", none⟩] ["  ID: number;"] ["  Price: number;"]
      ⟨["Title"], .Ident "string", some "`xml:\"title\"`"⟩ "Title" [] rfl
      (Or.inr ⟨_, rfl, by decide⟩) (by decide) (by decide)).trans (by decide)⟩

/-- C12: the slice type `[]byte` is mapped to `byte[]` and the qualified type
`time.Time` to `any`, not to `string`: the table entries `[]byte` and `time.Time`
are looked up for identifiers only, and no identifier has such a name. -/
theorem getTypeScriptType_bytes_and_time :
    New.getTypeScriptType (.ArrayType none (.Ident "byte")) = "byte[]" ∧
    New.getTypeScriptType (.SelectorExpr (.Ident "time") "Time") = "any" ∧
    New.typeMap.lookup "[]byte" = some "string" ∧
    New.typeMap.lookup "time.Time" = some "string" := by
  decide

/-- C13, as stated, fails: the embedded field `Base` tagged `json:",inline"` has no
json alias (its first segment is empty), and it is emitted with an empty name;
tagged `myjson:"x"` it has no json directive at all, and it is emitted under the
name `x`. -/
theorem convertStruct_embedded_field_counterexample :
    New.convertStruct "D" ⟨[⟨[], .Ident "Base", some "`json:\",inline\"`"⟩]⟩
      = some "interface D \x7b\n  : Base;\n\x7d" ∧
    New.convertStruct "D" ⟨[⟨[], .Ident "Base", some "`json:\",inline\"`"⟩]⟩
      ≠ some "interface D \x7b\n  Base: Base;\n\x7d" ∧
    New.convertStruct "D" ⟨[⟨[], .Ident "Base", some "`myjson:\"x\"`"⟩]⟩
      = some "interface D \x7b\n  x: Base;\n\x7d" := by
  decide

/-- The declared or derived name stands for a field without tag, with a tag
without the text `json:`, and with a tag whose first `json:"` has the empty
value. -/
theorem Converter.convertField_name_stands (c : Converter) (field : ast.Field)
    (htag : field.Tag = none ∨
      (∃ tag, field.Tag = some tag ∧ strings.Contains tag "json:" = false) ∨
      (∃ pre post, field.Tag = some (pre ++ "json:\"\"" ++ post) ∧
        strings.Contains pre "json:\"" = false)) :
    c.convertField field = some (.emit ("  " ++ Converter.declaredName field ++ ": " ++
      c.getTypeScriptType field.Typ ++ ";")) := by
  rcases htag with h | ⟨tag, h, hno⟩ | ⟨pre, post, h, hpre⟩
  · exact c.convertField_no_tag field h
  · exact c.convertField_no_json field tag h hno
  · have hshape : pre ++ "json:\"\"" ++ post = pre ++ "json:\"" ++ "" ++ "\"" ++ post := by
      have h1 : ("json:\"\"" : String) = "json:\"" ++ "" ++ "\"" := by decide
      rw [h1]
      simp only [String.append_assoc]
    rw [hshape] at h
    have hfield := c.convertField_json field pre "" post h hpre (by decide) (by decide)
    rw [if_neg (by decide), if_neg (by decide)] at hfield
    exact hfield

/-- C13, amended: an embedded field (no names) that has no tag, whose tag does not
hold the text `json:` anywhere, or whose tag has the empty value at its first
`json:"`, is emitted under the name derived from its type: the identifier's name
for an identifier, the final segment for a qualified reference, and `embedded`
for every other shape; the emitted type is the mapped type of the field; this
when no other field makes the loop panic. -/
theorem convertStruct_embedded_field (c : Converter) (name : String)
    (before after : List ast.Field) (l1 l2 : List String) (field : ast.Field)
    (hnames : field.Names = [])
    (htag : field.Tag = none ∨
      (∃ tag, field.Tag = some tag ∧ strings.Contains tag "json:" = false) ∨
      (∃ pre post, field.Tag = some (pre ++ "json:\"\"" ++ post) ∧
        strings.Contains pre "json:\"" = false))
    (hbefore : c.convertFields before [] = some l1)
    (hafter : c.convertFields after [] = some l2) :
    (∀ n, field.Typ = .Ident n →
      c.convertStruct name ⟨before ++ field :: after⟩ =
        some ("interface " ++ name ++ " \x7b\n" ++
          strings.Join (l1 ++ ["  " ++ n ++ ": " ++ c.getTypeScriptType field.Typ ++ ";"] ++ l2)
            "\n" ++ "\n\x7d")) ∧
    (∀ x sel, field.Typ = .SelectorExpr x sel →
      c.convertStruct name ⟨before ++ field :: after⟩ =
        some ("interface " ++ name ++ " \x7b\n" ++
          strings.Join (l1 ++ ["  " ++ sel ++ ": " ++ c.getTypeScriptType field.Typ ++ ";"] ++ l2)
            "\n" ++ "\n\x7d")) ∧
    ((∀ n, field.Typ ≠ .Ident n) → (∀ x sel, field.Typ ≠ .SelectorExpr x sel) →
      c.convertStruct name ⟨before ++ field :: after⟩ =
        some ("interface " ++ name ++ " \x7b\n" ++
          strings.Join (l1 ++ ["  " ++ "embedded" ++ ": " ++
            c.getTypeScriptType field.Typ ++ ";"] ++ l2) "\n" ++ "\n\x7d")) := by
  have hfield := c.convertField_name_stands field htag
  refine ⟨?_, ?_, ?_⟩
  · intro n hn
    have hname : Converter.declaredName field = n := by
      simp only [Converter.declaredName, hnames, hn]
    rw [hname] at hfield
    exact c.convertStruct_emit name before after field _ l1 l2 hfield hbefore hafter
  · intro x sel hsel
    have hname : Converter.declaredName field = sel := by
      simp only [Converter.declaredName, hnames, hsel]
    rw [hname] at hfield
    exact c.convertStruct_emit name before after field _ l1 l2 hfield hbefore hafter
  · intro hi hs
    have hname : Converter.declaredName field = "embedded" := by
      cases hty : field.Typ with
      | Ident n => exact absurd hty (hi n)
      | SelectorExpr x sel => exact absurd hty (hs x sel)
      | ArrayType _ _ => simp only [Converter.declaredName, hnames, hty]
      | MapType _ _ => simp only [Converter.declaredName, hnames, hty]
      | StarExpr _ => simp only [Converter.declaredName, hnames, hty]
      | ChanType _ => simp only [Converter.declaredName, hnames, hty]
      | FuncType => simp only [Converter.declaredName, hnames, hty]
      | InterfaceType => simp only [Converter.declaredName, hnames, hty]
      | StructType => simp only [Converter.declaredName, hnames, hty]
      | ParenExpr _ => simp only [Converter.declaredName, hnames, hty]
      | BasicLit _ => simp only [Converter.declaredName, hnames, hty]
      | Ellipsis => simp only [Converter.declaredName, hnames, hty]
    rw [hname] at hfield
    exact c.convertStruct_emit name before after field _ l1 l2 hfield hbefore hafter

/-- C13, amended, at the struct `Derived` of the tests, whose embedded `Base` gives
the line `Base: Base;`, at an embedded `pkg.Type` tagged `yaml:",inline"` and at
an embedded pointer `*Base` tagged `json:""`. -/
theorem convertStruct_embedded_field_witness :
    New.convertStruct "Derived"
      ⟨[] ++ ⟨[], .Ident "Base", none⟩ :: [⟨["Name"], .Ident "string", some "`json:\"name\"`"⟩]⟩
      = some "interface Derived \x7b\n  Base: Base;\n  name: string;\n\x7d" ∧
    New.convertStruct "D"
      ⟨[] ++ ⟨[], .SelectorExpr (.Ident "pkg") "Type", some "`yaml:\",inline\"`"⟩ :: []⟩
      = some "interface D \x7b\n  Type: any;\n\x7d" ∧
    New.convertStruct "D"
      ⟨[] ++ ⟨[], .StarExpr (.Ident "Base"), some ("`" ++ "json:\"\"" ++ "`")⟩ :: []⟩
      = some "interface D \x7b\n  embedded: Base;\n\x7d" :=
  ⟨((convertStruct_embedded_field New "Derived" []
      [⟨["Name"], .Ident "string", some "`json:\"name\"`"⟩] [] ["  name: string;"]
      ⟨[], .Ident "Base", none⟩ rfl (Or.inl rfl) (by decide) (by decide)).1 "Base" rfl).trans
      (by decide),
   ((convertStruct_embedded_field New "D" [] [] [] []
      ⟨[], .SelectorExpr (.Ident "pkg") "Type", some "`yaml:\",inline\"`"⟩ rfl
      (Or.inr (Or.inl ⟨_, rfl, by decide⟩)) (by decide)
      (by decide)).2.1 (.Ident "pkg") "Type" rfl).trans (by decide),
   ((convertStruct_embedded_field New "D" [] [] [] []
      ⟨[], .StarExpr (.Ident "Base"), some ("`" ++ "json:\"\"" ++ "`")⟩ rfl
      (Or.inr (Or.inr ⟨"`", "`", rfl, by decide⟩)) (by decide)
      (by decide)).2.2 (fun _ h => by cases h) (fun _ _ h => by cases h)).trans (by decide)⟩

/-! ## The block of a struct -/

/-- The loop only emits lines of fields of the list. -/
theorem Converter.mem_filterMap_fieldLine (c : Converter) (fs : List ast.Field)
    (line : String) (h : line ∈ fs.filterMap c.fieldLine) :
    ∃ field ∈ fs, c.convertField field = some (.emit line) := by
  obtain ⟨field, hmem, hline⟩ := List.mem_filterMap.mp h
  refine ⟨field, hmem, ?_⟩
  simp only [Converter.fieldLine] at hline
  split at hline
  · rename_i l hl
    injection hline with hline
    rw [← hline]
    exact hl
  · cases hline

/-- C14: when the loop over the fields of a struct named `N` ends with the lines
`lines` (in particular with at least one), `convertStruct` returns `interface N`, a
blank and an opening brace, a newline, the lines joined by single newlines, a
newline and the closing brace; the lines are those of the fields that are not
skipped, and each is two blanks, a name, a colon and a blank, the mapped type of
its field and a semicolon. -/
theorem convertStruct_block_format (c : Converter) (name : String)
    (structType : ast.StructType) (lines : List String)
    (hlines : c.convertFields structType.Fields [] = some lines) :
    c.convertStruct name structType =
      some ("interface " ++ name ++ " \x7b" ++ "\n" ++ strings.Join lines "\n" ++ "\n" ++ "\x7d") ∧
    lines = structType.Fields.filterMap c.fieldLine ∧
    ∀ line ∈ lines, ∃ field ∈ structType.Fields, ∃ emitted,
      line = "  " ++ emitted ++ ": " ++ c.getTypeScriptType field.Typ ++ ";" := by
  have heq := c.convertFields_eq_filterMap structType.Fields lines hlines
  refine ⟨?_, heq, ?_⟩
  · simp only [Converter.convertStruct, hlines, Option.some.injEq]
    apply String.ext
    simp only [String.data_append, List.append_assoc]
    rfl
  · intro line hline
    rw [heq] at hline
    obtain ⟨field, hmem, hf⟩ := c.mem_filterMap_fieldLine _ line hline
    obtain ⟨emitted, he⟩ := c.convertField_line_shape field line hf
    exact ⟨field, hmem, emitted, he⟩

/-- C14 at a struct with the fields `Name string` tagged `name` and `Age int`
tagged `age`. -/
theorem convertStruct_block_format_witness :
    New.convertStruct "X"
      ⟨[⟨["Name"], .Ident "string", some "`json:\"name\"`"⟩,
        ⟨["Age"], .Ident "int", some "`json:\"age\"`"⟩]⟩
      = some "interface X \x7b\n  name: string;\n  age: number;\n\x7d" :=
  (convertStruct_block_format New "X"
    ⟨[⟨["Name"], .Ident "string", some "`json:\"name\"`"⟩,
      ⟨["Age"], .Ident "int", some "`json:\"age\"`"⟩]⟩
    ["  name: string;", "  age: number;"] (by decide)).1.trans (by decide)

/-- C15, as stated, fails: a struct without fields, and a struct whose only field
is excluded by `-`, are rendered with an empty line between the braces, not as
the opening line directly followed by the closing brace. -/
theorem convertStruct_empty_body_counterexample :
    New.convertStruct "Empty" ⟨[]⟩ = some "interface Empty \x7b\n\n\x7d" ∧
    New.convertStruct "Empty" ⟨[]⟩ ≠ some "interface Empty \x7b\n\x7d" ∧
    New.convertStruct "Hidden" ⟨[⟨["B"], .Ident "int", some "`json:\"-\"`"⟩]⟩
      = some "interface Hidden \x7b\n\n\x7d" := by
  decide

/-- The loop over fields that are all excluded by the value `-` gives no line. -/
theorem Converter.convertFields_all_dash (c : Converter) :
    ∀ (fs : List ast.Field),
      (∀ f ∈ fs, ∃ pre post, f.Tag = some (pre ++ "json:\"-\"" ++ post) ∧
        strings.Contains pre "json:\"" = false) →
      c.convertFields fs [] = some []
  | [], _ => rfl
  | f :: fs, h => by
    obtain ⟨pre, post, htag, hpre⟩ := h f (List.mem_cons_self _ _)
    have hshape : pre ++ "json:\"-\"" ++ post = pre ++ "json:\"" ++ "-" ++ "\"" ++ post := by
      have h1 : ("json:\"-\"" : String) = "json:\"" ++ "-" ++ "\"" := by decide
      rw [h1]
      simp only [String.append_assoc]
    rw [hshape] at htag
    have hfield := c.convertField_json f pre "-" post htag hpre (by decide) (by decide)
    rw [if_pos rfl] at hfield
    simp only [Converter.convertFields, hfield]
    exact Converter.convertFields_all_dash c fs (fun g hg => h g (List.mem_cons_of_mem _ hg))

/-- C15, amended: a struct named `N` with no field at all, or with every field
excluded by the value `-` at the first `json:"` of its tag, is rendered as
`interface N`, a blank and an opening brace, a newline, an empty line and the
closing brace: there is one empty line between the braces. -/
theorem convertStruct_empty_body (c : Converter) (name : String) (fields : List ast.Field)
    (hall : ∀ f ∈ fields, ∃ pre post, f.Tag = some (pre ++ "json:\"-\"" ++ post) ∧
      strings.Contains pre "json:\"" = false) :
    c.convertStruct name ⟨fields⟩ = some ("interface " ++ name ++ " \x7b\n" ++ "\n\x7d") := by
  simp only [Converter.convertStruct, c.convertFields_all_dash fields hall, strings.Join,
    Option.some.injEq]
  apply String.ext
  simp only [String.data_append, List.append_assoc]
  rfl

/-- C15, amended, at a struct without fields and at a struct with the single
field `B int` tagged `json:"-"`. -/
theorem convertStruct_empty_body_witness :
    New.convertStruct "Empty" ⟨[]⟩ = some "interface Empty \x7b\n\n\x7d" ∧
    New.convertStruct "Hidden" ⟨[⟨["B"], .Ident "int", some "`json:\"-\"`"⟩]⟩
      = some "interface Hidden \x7b\n\n\x7d" :=
  ⟨(convertStruct_empty_body New "Empty" [] (fun _ h => by cases h)).trans (by decide),
   (convertStruct_empty_body New "Hidden" [⟨["B"], .Ident "int", some "`json:\"-\"`"⟩]
      (fun f h => by
        rw [List.mem_singleton] at h
        subst h
        exact ⟨"`", "`", by decide, by decide⟩)).trans (by decide)⟩

/-! ## Order and number of the member lines -/

/-- C17: with well-formed tags the loop over the fields `l1` followed by `l2`
ends, and its lines are the lines of `l1` followed by the lines of `l2`, each
being the lines of the fields that are not skipped, in declaration order; the
block of the struct is built from these lines in that order. -/
theorem convertStruct_field_order (c : Converter) (name : String) (l1 l2 : List ast.Field)
    (hw : ∀ f ∈ l1 ++ l2, tagWellFormed f = true) :
    c.convertFields l1 [] = some (l1.filterMap c.fieldLine) ∧
    c.convertFields l2 [] = some (l2.filterMap c.fieldLine) ∧
    c.convertFields (l1 ++ l2) [] = some (l1.filterMap c.fieldLine ++ l2.filterMap c.fieldLine) ∧
    c.convertStruct name ⟨l1 ++ l2⟩ =
      some ("interface " ++ name ++ " \x7b\n" ++
        strings.Join (l1.filterMap c.fieldLine ++ l2.filterMap c.fieldLine) "\n" ++ "\n\x7d") := by
  obtain ⟨a, ha⟩ := c.convertFields_wellFormed l1
    (fun f hf => hw f (List.mem_append_left _ hf))
  obtain ⟨b, hb⟩ := c.convertFields_wellFormed l2
    (fun f hf => hw f (List.mem_append_right _ hf))
  have ha2 := c.convertFields_eq_filterMap l1 a ha
  have hb2 := c.convertFields_eq_filterMap l2 b hb
  subst ha2 hb2
  have hab : c.convertFields (l1 ++ l2) [] =
      some (l1.filterMap c.fieldLine ++ l2.filterMap c.fieldLine) := by
    rw [c.convertFields_append, ha, hb]
  exact ⟨ha, hb, hab, by simp only [Converter.convertStruct, hab]⟩

/-- C17 at the fields of the struct `OmitDemo` of the tests followed by an
untagged field: the skipped field leaves no line and the order is kept. -/
theorem convertStruct_field_order_witness :
    New.convertStruct "OmitDemo"
      ⟨[⟨["A"], .Ident "int", some "`json:\"a,omitempty\"`"⟩,
        ⟨["B"], .Ident "int", some "`json:\"-\"`"⟩] ++ [⟨["C"], .Ident "bool", none⟩]⟩
      = some "interface OmitDemo \x7b\n  a: number;\n  C: boolean;\n\x7d" :=
  (convertStruct_field_order New "OmitDemo"
    [⟨["A"], .Ident "int", some "`json:\"a,omitempty\"`"⟩,
      ⟨["B"], .Ident "int", some "`json:\"-\"`"⟩] [⟨["C"], .Ident "bool", none⟩]
    (by decide)).2.2.2.trans (by decide)

/-- C18, as stated, fails: the field tagged `json:"-json:"` has the value `-json:`,
which is not `-`, and yet it is skipped, so that the struct has one field, no
excluded field and no member line.  The tag is cut at every `json:"`, and what is
left of the value is `-`. -/
theorem convertStruct_cardinality_counterexample :
    New.convertFields [⟨["A"], .Ident "int", some "`json:\"-json:\"`"⟩] [] = some [] ∧
    tagWellFormed ⟨["A"], .Ident "int", some "`json:\"-json:\"`"⟩ = true ∧
    jsonAliasText "`json:\"-json:\"`" = some "-json:" ∧
    valueIsDash ⟨["A"], .Ident "int", some "`json:\"-json:\"`"⟩ = false ∧
    New.convertStruct "T" ⟨[⟨["A"], .Ident "int", some "`json:\"-json:\"`"⟩]⟩
      = some "interface T \x7b\n\n\x7d" := by
  decide

/-- The number of lines and the number of excluded fields add up to the number of
fields. -/
theorem Converter.filterMap_fieldLine_length (c : Converter) :
    ∀ (fs : List ast.Field), (∀ f ∈ fs, tagWellFormed f = true) →
      (fs.filterMap c.fieldLine).length + fs.countP dashExcluded = fs.length
  | [], _ => rfl
  | f :: fs, h => by
    have ih := Converter.filterMap_fieldLine_length c fs
      (fun g hg => h g (List.mem_cons_of_mem _ hg))
    rcases c.convertField_wellFormed f (h f (List.mem_cons_self _ _)) with
      ⟨hd, hf⟩ | ⟨hd, line, hf⟩
    · have hl : c.fieldLine f = none := by simp only [Converter.fieldLine, hf]
      rw [List.filterMap_cons_none hl, List.countP_cons_of_pos _ _ hd, List.length_cons]
      omega
    · have hl : c.fieldLine f = some line := by simp only [Converter.fieldLine, hf]
      have hd2 : ¬ dashExcluded f = true := by simp [hd]
      rw [List.filterMap_cons_some hl, List.countP_cons_of_neg _ _ hd2, List.length_cons,
        List.length_cons]
      omega

/-- With well-formed tags the loop ends; the fields whose extracted text is `-`
are skipped, every other field gives one line, and the numbers add up. -/
theorem Converter.convertFields_count (c : Converter) (fields : List ast.Field)
    (hw : ∀ f ∈ fields, tagWellFormed f = true) :
    ∃ lines, c.convertFields fields [] = some lines ∧
      lines.length = fields.length - fields.countP dashExcluded ∧
      (∀ f ∈ fields, dashExcluded f = true → c.convertField f = some .skip) ∧
      (∀ f ∈ fields, dashExcluded f = false → ∃ line, c.convertField f = some (.emit line)) := by
  obtain ⟨lines, hlines⟩ := c.convertFields_wellFormed fields hw
  have heq := c.convertFields_eq_filterMap fields lines hlines
  have hlen := c.filterMap_fieldLine_length fields hw
  refine ⟨lines, hlines, ?_, ?_, ?_⟩
  · rw [heq]
    omega
  · intro f hf hd
    rcases c.convertField_wellFormed f (hw f hf) with ⟨-, h⟩ | ⟨hd2, -⟩
    · exact h
    · rw [hd] at hd2
      cases hd2
  · intro f hf hd
    rcases c.convertField_wellFormed f (hw f hf) with ⟨hd2, -⟩ | ⟨-, h⟩
    · rw [hd] at hd2
      cases hd2
    · exact h

/-- C19: a field declaration that lists several names is treated as the
declaration of its first name alone: the block of the struct is the same, so the
other names give no line; without tag (or with a tag without the text `json:`)
the declaration gives exactly one line, named after the first name. -/
theorem convertStruct_several_names (c : Converter) (name : String)
    (before after : List ast.Field) (first : String) (others : List String)
    (typ : ast.Expr) (tag : Option String) :
    c.convertStruct name ⟨before ++ ⟨first :: others, typ, tag⟩ :: after⟩ =
      c.convertStruct name ⟨before ++ ⟨[first], typ, tag⟩ :: after⟩ ∧
    c.convertField ⟨first :: others, typ, tag⟩ = c.convertField ⟨[first], typ, tag⟩ ∧
    c.convertFields [⟨first :: others, typ, none⟩] [] =
      some ["  " ++ first ++ ": " ++ c.getTypeScriptType typ ++ ";"] := by
  have hfield : c.convertField ⟨first :: others, typ, tag⟩ = c.convertField ⟨[first], typ, tag⟩ := by
    simp only [Converter.convertField, Converter.declaredName]
  refine ⟨?_, hfield, ?_⟩
  · have hcons : c.convertFields (⟨first :: others, typ, tag⟩ :: after) [] =
        c.convertFields (⟨[first], typ, tag⟩ :: after) [] := by
      simp only [Converter.convertFields, hfield]
    simp only [Converter.convertStruct, c.convertFields_append before, hcons]
  · simp only [Converter.convertFields, Converter.convertField, Converter.declaredName,
      List.nil_append]


/-! ## The blocks of a file -/

/-- The blocks of two lists of struct declarations one after the other. -/
theorem Converter.structBlocks_append (c : Converter) :
    ∀ (xs ys : List (String × ast.StructType)),
      c.structBlocks (xs ++ ys) =
        match c.structBlocks xs, c.structBlocks ys with
        | some a, some b => some (a ++ b)
        | _, _ => none
  | [], ys => by
    cases h : c.structBlocks ys <;> simp [Converter.structBlocks, h]
  | (n, st) :: xs, ys => by
    show c.structBlocks ((n, st) :: (xs ++ ys)) = _
    simp only [Converter.structBlocks]
    rw [Converter.structBlocks_append c xs ys]
    cases c.convertStruct n st <;> cases c.structBlocks xs <;> cases c.structBlocks ys <;> rfl

/-- The inner loop of `ConvertFile` appends the blocks of the struct type specs. -/
theorem Converter.convertSpecs_eq (c : Converter) :
    ∀ (specs : List ast.Spec) (types : List String),
      c.convertSpecs specs types =
        (c.structBlocks (structSpecs specs)).map (types ++ ·)
  | [], types => by simp [Converter.convertSpecs, structSpecs, Converter.structBlocks]
  | .ImportSpec :: rest, types => by
    simp only [Converter.convertSpecs, structSpecs]
    exact Converter.convertSpecs_eq c rest types
  | .ValueSpec :: rest, types => by
    simp only [Converter.convertSpecs, structSpecs]
    exact Converter.convertSpecs_eq c rest types
  | .TypeSpec n none :: rest, types => by
    simp only [Converter.convertSpecs, structSpecs]
    exact Converter.convertSpecs_eq c rest types
  | .TypeSpec n (some st) :: rest, types => by
    simp only [Converter.convertSpecs, structSpecs, Converter.structBlocks]
    cases hb : c.convertStruct n st with
    | none => simp
    | some block =>
      simp only []
      rw [Converter.convertSpecs_eq c rest (types ++ [block])]
      cases c.structBlocks (structSpecs rest) <;> simp

/-- The outer loop of `ConvertFile` appends the blocks of the struct type
declarations. -/
theorem Converter.convertDecls_eq (c : Converter) :
    ∀ (decls : List ast.Decl) (types : List String),
      c.convertDecls decls types =
        (c.structBlocks (structDecls decls)).map (types ++ ·)
  | [], types => by simp [Converter.convertDecls, structDecls, Converter.structBlocks]
  | .FuncDecl :: rest, types => by
    simp only [Converter.convertDecls, structDecls]
    exact Converter.convertDecls_eq c rest types
  | .BadDecl :: rest, types => by
    simp only [Converter.convertDecls, structDecls]
    exact Converter.convertDecls_eq c rest types
  | .GenDecl specs :: rest, types => by
    simp only [Converter.convertDecls, structDecls, c.structBlocks_append,
      c.convertSpecs_eq specs types]
    cases c.structBlocks (structSpecs specs) with
    | none => simp
    | some a =>
      simp only [Option.map_some']
      rw [Converter.convertDecls_eq c rest (types ++ a)]
      cases c.structBlocks (structDecls rest) <;> simp

/-- C16: for every sequence of top-level declarations, the text `ConvertFile`
builds is made of the blocks `convertStruct` gives for the struct type
declarations, in the order they occur, joined by one blank line; the other
declarations add nothing, and without a struct type declaration the text is
empty. -/
theorem ConvertFile_blocks (c : Converter) (decls : List ast.Decl) :
    c.ConvertFile ⟨decls⟩ =
      (c.structBlocks (structDecls decls)).map (fun blocks => strings.Join blocks "\n\n") ∧
    (structDecls decls = [] → c.ConvertFile ⟨decls⟩ = some "") := by
  have h : c.ConvertFile ⟨decls⟩ =
      (c.structBlocks (structDecls decls)).map (fun blocks => strings.Join blocks "\n\n") := by
    simp only [Converter.ConvertFile, c.convertDecls_eq decls []]
    cases c.structBlocks (structDecls decls) <;> simp
  refine ⟨h, ?_⟩
  intro hnone
  rw [h, hnone]
  rfl

/-- C16 at the file of the test with two structs, here between an import and a
function declaration, and at a file without struct type. -/
theorem ConvertFile_blocks_witness :
    New.ConvertFile ⟨[.GenDecl [.ImportSpec],
        .GenDecl [.TypeSpec "A" (some ⟨[⟨["X"], .Ident "int", some "`json:\"x\"`"⟩]⟩)],
        .FuncDecl,
        .GenDecl [.TypeSpec "B" (some ⟨[⟨["Y"], .Ident "string", some "`json:\"y\"`"⟩]⟩),
          .TypeSpec "N" none]]⟩
      = some "interface A \x7b\n  x: number;\n\x7d\n\ninterface B \x7b\n  y: string;\n\x7d" ∧
    New.ConvertFile ⟨[.GenDecl [.ImportSpec], .FuncDecl, .GenDecl [.TypeSpec "N" none]]⟩
      = some "" :=
  ⟨(ConvertFile_blocks New _).1.trans (by decide),
   (ConvertFile_blocks New [.GenDecl [.ImportSpec], .FuncDecl, .GenDecl [.TypeSpec "N" none]]).2
     rfl⟩

/-! ## Recognition of the json directive by substring -/

namespace strings

/-- A separator whose last character does not occur in the text is not found. -/
theorem indexChars_last_absent {body : List Char} {q : Char} :
    ∀ (s : List Char), q ∉ s → indexChars (body ++ [q]) s = none
  | [], _ => indexChars_nil (by simp)
  | c :: cs, h => by
    have hc : ¬ (body ++ [q]) <+: c :: cs := by
      intro hp
      exact h (hp.subset (by simp))
    rw [indexChars_cons_step hc,
      indexChars_last_absent cs (fun hm => h (List.mem_cons_of_mem _ hm))]
    rfl

/-- The second piece of the split, when the value after the first separator is
directly followed by the separator again: it is the value. -/
theorem splitChars_second_cut {body v pre post : List Char} {q : Char}
    (hq : q ∉ body) (hpre : indexChars (body ++ [q]) pre = none) (hv : q ∉ v)
    (n : Nat) (hn : 2 ≤ n) :
    (splitChars (body ++ [q]) n (pre ++ (body ++ [q]) ++ (v ++ (body ++ [q]) ++ post)))[1]?
      = some v := by
  obtain ⟨k, rfl⟩ : ∃ k, n = k + 2 := ⟨n - 2, by omega⟩
  have hfirst := indexChars_first hq pre (v ++ (body ++ [q]) ++ post) hpre
  have hdrop : (pre ++ (body ++ [q]) ++ (v ++ (body ++ [q]) ++ post)).drop
      (pre.length + (body ++ [q]).length) = v ++ (body ++ [q]) ++ post := by
    rw [← List.length_append]
    exact List.drop_left _ _
  have hnext := indexChars_first hq v post (indexChars_last_absent v hv)
  have htake : (v ++ (body ++ [q]) ++ post).take v.length = v := by
    rw [List.append_assoc]
    exact List.take_left _ _
  simp only [splitChars, hfirst, hdrop, hnext, htake, List.getElem?_cons_succ,
    List.getElem?_cons_zero]

/-- The text `jsonTag` of a tag whose first `json:"` is followed by a value that
ends in `json:` and by the closing quote: the value without its end `json:`. -/
theorem jsonTag_cut (pre v post : String)
    (hpre : Contains pre "json:\"" = false) (hv : '"' ∉ v.data) :
    (Split (pre ++ "json:\"" ++ (v ++ "json:") ++ "\"" ++ post) "json:\"")[1]? = some v := by
  have hsep : ("json:\"" : String).data = ['j', 's', 'o', 'n', ':'] ++ ['"'] := rfl
  have hbody : ("json:" : String).data = ['j', 's', 'o', 'n', ':'] := rfl
  have hone : ("\"" : String).data = ['"'] := rfl
  have hq : '"' ∉ ['j', 's', 'o', 'n', ':'] := by decide
  have hpre2 : indexChars (['j', 's', 'o', 'n', ':'] ++ ['"']) pre.data = none := by
    have h1 : (indexChars ("json:\"" : String).data pre.data).isSome = false := hpre
    rw [hsep] at h1
    cases hx : indexChars (['j', 's', 'o', 'n', ':'] ++ ['"']) pre.data with
    | none => rfl
    | some k =>
      rw [hx] at h1
      cases h1
  have hdata : (pre ++ "json:\"" ++ (v ++ "json:") ++ "\"" ++ post).data
      = pre.data ++ (['j', 's', 'o', 'n', ':'] ++ ['"']) ++
        (v.data ++ (['j', 's', 'o', 'n', ':'] ++ ['"']) ++ post.data) := by
    rw [String.data_append, String.data_append, String.data_append, String.data_append,
      String.data_append, hsep, hone, hbody]
    simp only [List.append_assoc, List.singleton_append, List.cons_append, List.nil_append]
  rw [Split_getElem? _ _ (by decide), hsep, hdata, splitChars_second_cut hq hpre2 hv]
  · rfl
  · simp only [List.length_append, List.length_cons, List.length_nil]
    omega

end strings

/-- C20, as stated, fails: in the tag `json:"ajson:"` the text between the first
`json:"` and the next double quote is `ajson:`, while the alias the converter
finds is `a`, and the field is emitted under the name `a`. -/
theorem jsonTag_between_quotes_counterexample :
    jsonAliasText "`json:\"ajson:\"`" = some "ajson:" ∧
    Converter.jsonTag "`json:\"ajson:\"`" = some "a" ∧
    New.convertFields [⟨["A"], .Ident "int", some "`json:\"ajson:\"`"⟩] []
      = some ["  a: number;"] := by
  decide

/-- C20, amended: the json directive is recognised by substring, not by key.  For
every tag in which the first occurrence of `json:"`, wherever it stands, is
followed by a text `T` without double quote and by a double quote, the alias
value `jsonTag` is `T`, or `T` without its end when `T` ends in `json:`; the
field is skipped when the alias value is `-`, renamed to the first
comma-separated segment of the alias value when that is not empty, and keeps its
name otherwise. -/
theorem jsonTag_by_substring (c : Converter) (field : ast.Field) (pre T post V : String)
    (htag : field.Tag = some (pre ++ "json:\"" ++ T ++ "\"" ++ post))
    (hpre : strings.Contains pre "json:\"" = false) (hT : '"' ∉ T.data)
    (hV : (strings.HasSuffix T "json:" = false ∧ V = T) ∨ T = V ++ "json:") :
    Converter.jsonTag (pre ++ "json:\"" ++ T ++ "\"" ++ post) = some V ∧
    c.convertField field =
      if V = "-" then some .skip
      else if V ≠ "" then
        match (strings.Split V ",")[0]? with
        | none => none
        | some first =>
          some (.emit ("  " ++ first ++ ": " ++ c.getTypeScriptType field.Typ ++ ";"))
      else some (.emit ("  " ++ Converter.declaredName field ++ ": " ++
        c.getTypeScriptType field.Typ ++ ";")) := by
  have hjson : Converter.jsonTag (pre ++ "json:\"" ++ T ++ "\"" ++ post) = some V := by
    rcases hV with ⟨hend, rfl⟩ | hcut
    · obtain ⟨rest, h1, h2⟩ := strings.jsonTag_extract pre V post hpre hT hend
      simp only [Converter.jsonTag, h1, h2]
    · subst hcut
      have hVq : '"' ∉ V.data := by
        intro hm
        apply hT
        rw [String.data_append]
        exact List.mem_append_left _ hm
      have h1 := strings.jsonTag_cut pre V post hpre hVq
      have h2 : (strings.Split V "\"")[0]? = some V := by
        rw [strings.Split_getElem? _ _ (by decide)]
        have hone : ("\"" : String).data = ['"'] := rfl
        rw [hone, strings.splitChars_single_whole V.data hVq]
        rfl
      simp only [Converter.jsonTag, h1, h2]
  have hc : strings.Contains (pre ++ "json:\"" ++ T ++ "\"" ++ post) "json:" = true := by
    have := strings.Contains_json pre (T ++ "\"" ++ post)
    simpa [String.append_assoc] using this
  refine ⟨hjson, ?_⟩
  rw [c.convertField_of_jsonTag field _ htag hc, hjson]

/-- C20, amended, at the tags `myjson:"x"` and `myjson:"-"`, whose only key merely
ends in json: the field is renamed to `x`, and skipped. -/
theorem jsonTag_by_substring_witness :
    Converter.jsonTag ("`my" ++ "json:\"" ++ "x" ++ "\"" ++ "`") = some "x" ∧
    Converter.jsonTag ("`my" ++ "json:\"" ++ "-" ++ "\"" ++ "`") = some "-" ∧
    New.convertStruct "T" ⟨[⟨["A"], .Ident "int", some "`myjson:\"x\"`"⟩]⟩
      = some "interface T \x7b\n  x: number;\n\x7d" ∧
    New.convertStruct "T" ⟨[⟨["A"], .Ident "int", some "`myjson:\"-\"`"⟩]⟩
      = some "interface T \x7b\n\n\x7d" :=
  ⟨(jsonTag_by_substring New ⟨["A"], .Ident "int", some "`myjson:\"x\"`"⟩ "`my" "x" "`" "x"
      (by decide) (by decide) (by decide) (Or.inl ⟨by decide, rfl⟩)).1,
   (jsonTag_by_substring New ⟨["A"], .Ident "int", some "`myjson:\"-\"`"⟩ "`my" "-" "`" "-"
      (by decide) (by decide) (by decide) (Or.inl ⟨by decide, rfl⟩)).1,
   by decide, by decide⟩

/-! ## The alias value and the text the converter extracts -/

namespace strings

/-- Before the first occurrence of a non-empty separator there is none. -/
theorem indexChars_take_none {sep : List Char} (hsep : sep ≠ []) :
    ∀ (s : List Char) (m : Nat), indexChars sep s = some m →
      indexChars sep (s.take m) = none
  | [], m, h => by
    rw [indexChars_nil hsep] at h
    cases h
  | c :: cs, m, h => by
    by_cases hp : sep <+: c :: cs
    · rw [indexChars_at_start hp] at h
      cases h
      exact indexChars_nil hsep
    · rw [indexChars_cons_step hp] at h
      cases hi : indexChars sep cs with
      | none => simp [hi] at h
      | some k =>
        simp only [hi, Option.map_some', Option.some.injEq] at h
        subst h
        have ih := indexChars_take_none hsep cs k hi
        have hnp : ¬ sep <+: c :: cs.take k := by
          intro hq
          apply hp
          exact hq.trans ((List.prefix_cons_inj c).mpr (List.take_prefix k cs))
        rw [List.take_succ_cons, indexChars_cons_step hnp, ih]
        rfl

/-- The second piece of the split when nothing of the separator's last character
follows the first occurrence: it is all that follows. -/
theorem splitChars_second_open {body pre rest : List Char} {q : Char}
    (hq : q ∉ body) (hpre : indexChars (body ++ [q]) pre = none) (hrest : q ∉ rest)
    (n : Nat) (hn : 2 ≤ n) :
    (splitChars (body ++ [q]) n (pre ++ (body ++ [q]) ++ rest))[1]? = some rest := by
  obtain ⟨k, rfl⟩ : ∃ k, n = k + 2 := ⟨n - 2, by omega⟩
  have hfirst := indexChars_first hq pre rest hpre
  have hdrop : (pre ++ (body ++ [q]) ++ rest).drop (pre.length + (body ++ [q]).length)
      = rest := by
    rw [← List.length_append]
    exact List.drop_left _ _
  simp only [splitChars, hfirst, hdrop, indexChars_last_absent rest hrest,
    List.getElem?_cons_succ, List.getElem?_cons_zero]

end strings

/-- The text up to the first double quote holds no double quote, and what
follows it is nothing or a double quote and more. -/
theorem upToQuote_spec :
    ∀ (s : List Char), '"' ∉ upToQuote s ∧
      (s = upToQuote s ∨ ∃ post, s = upToQuote s ++ '"' :: post)
  | [] => ⟨by simp [upToQuote], Or.inl rfl⟩
  | c :: cs => by
    by_cases hc : c = '"'
    · subst hc
      exact ⟨by simp [upToQuote], Or.inr ⟨cs, by simp [upToQuote]⟩⟩
    · obtain ⟨h1, h2⟩ := upToQuote_spec cs
      refine ⟨?_, ?_⟩
      · simp only [upToQuote, hc, if_false, List.mem_cons, not_or]
        exact ⟨fun e => hc e.symm, h1⟩
      · rcases h2 with h | ⟨post, h⟩
        · exact Or.inl (by simp only [upToQuote, hc, if_false]; rw [← h])
        · exact Or.inr ⟨post, by
            simp only [upToQuote, hc, if_false, List.cons_append]
            rw [← h]⟩

/-- The characters of a tag around the first `json:"` in it. -/
theorem tag_data_around_first (tag : String) (m : Nat)
    (hi : strings.indexChars (['j', 's', 'o', 'n', ':'] ++ ['"']) tag.data = some m) :
    tag.data = tag.data.take m ++ (['j', 's', 'o', 'n', ':'] ++ ['"']) ++
      tag.data.drop (m + 6) ∧
    strings.indexChars (['j', 's', 'o', 'n', ':'] ++ ['"']) (tag.data.take m) = none := by
  obtain ⟨⟨t, ht⟩, -⟩ := strings.indexChars_some_prefix tag.data m hi
  have hdrop : tag.data.drop (m + 6) = t := by
    have h1 : tag.data.drop (m + 6) = (tag.data.drop m).drop 6 := by
      rw [List.drop_drop, Nat.add_comm]
    rw [h1, ← ht]
    rfl
  refine ⟨?_, strings.indexChars_take_none (by simp) tag.data m hi⟩
  rw [hdrop, List.append_assoc, ht, List.take_append_drop]

/-- The text the converter extracts is the alias value, the text between the
first `json:"` and the next double quote, unless that value ends in `json:`. -/
theorem Converter.jsonTag_eq_aliasText (tag value : String)
    (h : jsonAliasText tag = some value)
    (hend : strings.HasSuffix value "json:" = false) :
    Converter.jsonTag tag = some value := by
  have hsep : ("json:\"" : String).data = ['j', 's', 'o', 'n', ':'] ++ ['"'] := rfl
  have hone : ("\"" : String).data = ['"'] := rfl
  have hq : '"' ∉ ['j', 's', 'o', 'n', ':'] := by decide
  cases hi : strings.indexChars (['j', 's', 'o', 'n', ':'] ++ ['"']) tag.data with
  | none =>
    have hi2 : strings.Index tag "json:\"" = none := hi
    have h0 : jsonAliasText tag = none := by
      simp only [jsonAliasText, hi2]
    rw [h0] at h
    cases h
  | some m =>
    have hval : value = String.mk (upToQuote (tag.data.drop (m + 6))) := by
      have hi2 : strings.Index tag "json:\"" = some m := hi
      have h0 : jsonAliasText tag = some (String.mk (upToQuote (tag.data.drop (m + 6)))) := by
        simp only [jsonAliasText, hi2]
        rfl
      rw [h0] at h
      exact (Option.some.inj h).symm
    obtain ⟨hdata, hpre⟩ := tag_data_around_first tag m hi
    obtain ⟨hnoq, hshape⟩ := upToQuote_spec (tag.data.drop (m + 6))
    have hvdata : value.data = upToQuote (tag.data.drop (m + 6)) := by rw [hval]
    rw [← hvdata] at hnoq hshape
    have hVone : (strings.Split value "\"")[0]? = some value := by
      rw [strings.Split_getElem? _ _ (by decide), hone,
        strings.splitChars_single_whole value.data hnoq]
      rfl
    rcases hshape with hopen | ⟨post, hclosed⟩
    · rw [hopen] at hdata
      have h1 : (strings.Split tag "json:\"")[1]? = some value := by
        rw [strings.Split_getElem? _ _ (by decide), hsep]
        have hlen : 2 ≤ tag.data.length := by
          rw [hdata]
          simp only [List.length_append, List.length_cons, List.length_nil]
          omega
        have key := strings.splitChars_second_open hq hpre hnoq tag.data.length hlen
        rw [← hdata] at key
        rw [key]
        rfl
      simp only [Converter.jsonTag, h1, hVone]
    · rw [hclosed] at hdata
      have htag : tag = String.mk (tag.data.take m) ++ "json:\"" ++ value ++ "\"" ++
          String.mk post := by
        apply String.ext
        refine hdata.trans ?_
        rw [String.data_append, String.data_append, String.data_append, String.data_append,
          hsep, hone]
        simp only [List.append_assoc, List.singleton_append, List.cons_append, List.nil_append]
      have hpre2 : strings.Contains (String.mk (tag.data.take m)) "json:\"" = false := by
        show (strings.indexChars ("json:\"" : String).data (tag.data.take m)).isSome = false
        rw [hsep, hpre]
        rfl
      obtain ⟨rest, h1, h2⟩ := strings.jsonTag_extract _ value (String.mk post) hpre2 hnoq hend
      rw [← htag] at h1
      simp only [Converter.jsonTag, h1, h2]

/-- A tag without `json:"` has no alias value. -/
theorem jsonAliasText_eq_none (tag : String) (h : strings.Contains tag "json:\"" = false) :
    jsonAliasText tag = none := by
  have h1 : (strings.Index tag "json:\"").isSome = false := h
  cases hi : strings.Index tag "json:\"" with
  | none => simp only [jsonAliasText, hi]
  | some m =>
    rw [hi] at h1
    cases h1

/-- For a field whose alias value does not end in `json:`, the value is `-`
exactly when the text the converter extracts is `-`. -/
theorem dashExcluded_eq_valueIsDash (field : ast.Field)
    (hend : valueEndsInJson field = false) :
    dashExcluded field = valueIsDash field := by
  cases htag : field.Tag with
  | none => simp only [dashExcluded, valueIsDash, htag]
  | some tag =>
    cases hv : jsonAliasText tag with
    | none =>
      have hq : strings.Contains tag "json:\"" = false := by
        cases hq : strings.Contains tag "json:\"" with
        | false => rfl
        | true =>
          have h1 : (strings.Index tag "json:\"").isSome = true := hq
          cases hi : strings.Index tag "json:\"" with
          | none =>
            rw [hi] at h1
            cases h1
          | some m => simp [jsonAliasText, hi] at hv
      simp only [dashExcluded, valueIsDash, htag, hv, Converter.jsonTag_eq_none tag hq]
    | some value =>
      have hend2 : strings.HasSuffix value "json:" = false := by
        simpa only [valueEndsInJson, htag, hv] using hend
      simp only [dashExcluded, valueIsDash, htag, hv,
        Converter.jsonTag_eq_aliasText tag value hv hend2]

/-- C18, amended: for every struct declaration with well-formed tags in which no
json tag value ends in `json:`, the loop ends and the number of member lines is
the number of field declarations minus the number of fields whose json tag value
(the text between the first `json:"` of the tag and the next double quote) is
exactly `-`; each of these fields gives no line and every other field gives
exactly one line. -/
theorem convertStruct_cardinality (c : Converter) (fields : List ast.Field)
    (hw : ∀ f ∈ fields, tagWellFormed f = true)
    (hend : ∀ f ∈ fields, valueEndsInJson f = false) :
    ∃ lines, c.convertFields fields [] = some lines ∧
      lines.length = fields.length - fields.countP valueIsDash ∧
      (∀ f ∈ fields, valueIsDash f = true → c.convertField f = some .skip) ∧
      (∀ f ∈ fields, valueIsDash f = false → ∃ line, c.convertField f = some (.emit line)) := by
  obtain ⟨lines, hlines, hlen, hskip, hemit⟩ := c.convertFields_count fields hw
  have hcount : fields.countP dashExcluded = fields.countP valueIsDash := by
    apply List.countP_congr
    intro f hf
    rw [dashExcluded_eq_valueIsDash f (hend f hf)]
  refine ⟨lines, hlines, ?_, ?_, ?_⟩
  · rw [← hcount]
    exact hlen
  · intro f hf hd
    exact hskip f hf (by rw [dashExcluded_eq_valueIsDash f (hend f hf)]; exact hd)
  · intro f hf hd
    exact hemit f hf (by rw [dashExcluded_eq_valueIsDash f (hend f hf)]; exact hd)

/-- C18, amended, at the struct `OmitDemo` of the tests: two fields, one of them
with the value `-`, one member line. -/
theorem convertStruct_cardinality_witness :
    ∃ lines, New.convertFields
        [⟨["A"], .Ident "int", some "`json:\"a,omitempty\"`"⟩,
          ⟨["B"], .Ident "int", some "`json:\"-\"`"⟩] [] = some lines ∧
      lines.length = 2 - 1 := by
  obtain ⟨lines, h1, h2, -, -⟩ := convertStruct_cardinality New
    [⟨["A"], .Ident "int", some "`json:\"a,omitempty\"`"⟩,
      ⟨["B"], .Ident "int", some "`json:\"-\"`"⟩] (by decide) (by decide)
  refine ⟨lines, h1, ?_⟩
  rw [h2]
  decide
